import Mathlib

/-!
# Formal model of the `pingem` ICMP pinger

This file gives a shallow embedding, in Lean 4, of the core of the `pingem`
repository (`src/pingem/pinger.py`): the ICMP echo codec
(`create_icmp_echo_request`, `parse_icmp_echo_reply`, `calculate_checksum`)
and the `Pinger` scheduler (host queue, bounded window of outstanding
packets, per-packet timeouts, result callbacks), together with theorems
checking the repository's specification against this model.

Modelling conventions:
* Byte strings are `List Nat` with each byte `< 256`.
* The host platform is modelled as little-endian (`sys.byteorder == 'little'`),
  the overwhelmingly common case: `array('H')` reads little-endian 16-bit
  words and `socket.htons` swaps the two bytes of a 16-bit value.
* Python's `float` timestamps are modelled as natural numbers: a timestamp is
  identified with (the value encoded by) its 8-byte IEEE-754 serialization,
  which `struct.pack('d', ·)` emits little-endian.  The code never does
  arithmetic on a timestamp other than subtraction, so this is faithful.
* Machine integers are `Nat`/`Int` with explicit `% 2 ^ w` where the source
  truncates (`& 0xFFFF`, `& 0xffffffff`).
* The event loop (`pyev`) is modelled as an explicit trace of handler
  invocations (`on_idle` ticks and `on_receive` datagram deliveries), folded
  over the scheduler state; each handler invocation receives the current
  wall-clock time as a parameter.  Callbacks are accumulated in a list
  instead of being invoked.
* An uncaught Python exception escaping a handler is modelled as
  `Except.error`: the loop does not continue past it.
* Python `dict`s are modelled as association lists in insertion order.  A
  CPython 2.7 dict enumerates its entries in hash/slot order, not insertion
  order; the claims proved over the insertion-ordered model rest only on
  order-insensitive facts (counts and lengths), and where the enumeration
  order is observable (the timeout-eviction scan) the hash/slot order is
  modelled explicitly (`dictIter8`).
-/

/-! ## ICMP codec (`pinger.py`, lines 174-241)

`calculate_checksum` (lines 222-241): the source pads the byte string with
one zero byte if its length is odd, reads it as an `array('H')` of 16-bit
words (little-endian on the modelled host; the `byteswap` branch is for
big-endian hosts only), sums them, truncates to 32 bits, folds the carry,
complements and converts with `htons`.  `wordSum` fuses the padding and the
little-endian word sum: an odd trailing byte `a` is the padded word
`a + 256 * 0`. -/

def wordSum : List Nat → Nat
  | [] => 0
  | [a] => a
  | a :: b :: rest => (a + 256 * b) + wordSum rest

/-- Lines 236-237 of the source: `val = (val >> 16) + (val & 0xffff)` followed
by `val += (val >> 16)`; the final `% 65536` is the `& 0xffff` applied by
line 238 together with the complement. -/
def fold16 (v : Nat) : Nat :=
  ((v / 65536 + v % 65536) + (v / 65536 + v % 65536) / 65536) % 65536

/-- `socket.htons` on the modelled little-endian host: swap the two bytes of
a 16-bit value. -/
def htons16 (x : Nat) : Nat :=
  x % 256 * 256 + x / 256

/-- `calculate_checksum` (lines 222-241).  `65535 - fold16 v` is Python's
`~val & 0xffff` for `val` with low 16 bits `fold16 v`. -/
def calculate_checksum (l : List Nat) : Nat :=
  htons16 (65535 - fold16 (wordSum l % 4294967296))

/-! ### Reference definition of the checksum, from the spec's words

The spec (section 4.1) describes the Internet checksum as: treat the bytes as
a sequence of 16-bit native-endian words (pad with a zero byte if odd
length), sum with 32-bit wraparound, fold the carry from bits 16-31 back into
bits 0-15 twice, take the one's complement of the low 16 bits, then convert
host byte order to network byte order.  The definitions below follow those
words (for the little-endian host modelled throughout), to be compared with
`calculate_checksum` above. -/

def toWords16 : List Nat → List Nat
  | a :: b :: rest => (a + 256 * b) :: toWords16 rest
  | _ => []

/-- Modelled from the spec: the reference RFC 1071 checksum as described word
for word in section 4.1 of the spec (pad, native-endian 16-bit words, 32-bit
wraparound sum, two carry folds, one's complement of the low 16 bits, host to
network byte order). -/
def rfc1071_checksum (l : List Nat) : Nat :=
  let padded := if l.length % 2 = 1 then l ++ [0] else l
  let sum32 := (toWords16 padded).foldl (fun a w => (a + w) % 4294967296) 0
  let f1 := sum32 / 65536 + sum32 % 65536
  let f2 := f1 / 65536 + f1 % 65536
  let comp := 65535 - f2 % 65536
  comp % 256 * 256 + comp / 256

/-! ### Packet construction and parsing -/

/-- `struct.pack('d', ts)` on the little-endian host: the eight bytes of the
64-bit pattern of the timestamp, least significant byte first. -/
def packD (ts : Nat) : List Nat :=
  [ts % 256, ts / 256 % 256, ts / 65536 % 256, ts / 16777216 % 256,
   ts / 4294967296 % 256, ts / 1099511627776 % 256,
   ts / 281474976710656 % 256, ts / 72057594037927936 % 256]

/-- `create_icmp_echo_request` (lines 174-198).  The header is
`struct.pack('!BBHHH', 8, 0, checksum, id_, seq)` (big-endian); the payload
is the packed timestamp followed by `(size - 8) - 8` filler bytes `'Q'`
(0x51 = 81); a negative filler count yields the empty string in Python, hence
`Int.toNat`.  `struct.pack` requires `id_` and `seq` to fit in 16 bits;
theorems assume this in their hypotheses. -/
def create_icmp_echo_request (id_ seq ts : Nat) (size : Int) : List Nat :=
  let filler := List.replicate (size - 16).toNat 81
  let payload := packD ts ++ filler
  let ck := calculate_checksum ([8, 0, 0, 0, id_ / 256, id_ % 256, seq / 256, seq % 256] ++ payload)
  [8, 0, ck / 256, ck % 256, id_ / 256, id_ % 256, seq / 256, seq % 256] ++ payload

/-- Outcomes of `parse_icmp_echo_reply`: the explicitly raised
`InvalidIcmpPacketType` (line 215), or `struct.error` raised by
`struct.unpack` when the sliced byte string is shorter than the format
(lines 210-211, 217). -/
inductive IcmpParseError
  | invalidPacketType
  | structError
deriving DecidableEq

/-- `parse_icmp_echo_reply` (lines 201-219).  `packet[20:28]` is
`(packet.drop 20).take 8`, and `struct.unpack('!BBHHH', ·)` raises
`struct.error` unless its argument has exactly 8 bytes, i.e. unless
`packet.length ≥ 28`; likewise `struct.unpack('d', packet[28:36])` requires
`packet.length ≥ 36`.  The type check (line 214) sits between the two
unpacks, exactly as in the source.  The big-endian 16-bit `id` and `seq`
fields are bytes 4-5 and 6-7 of the header slice; the little-endian 8-byte
timestamp follows the header. -/
def parse_icmp_echo_reply (packet : List Nat) :
    Except IcmpParseError (Nat × Nat × Nat) :=
  let hdr := (packet.drop 20).take 8
  if packet.length < 28 then .error .structError
  else if hdr.getD 0 0 ≠ 0 then .error .invalidPacketType
  else if packet.length < 36 then .error .structError
  else
    let tsb := (packet.drop 28).take 8
    .ok (hdr.getD 4 0 * 256 + hdr.getD 5 0,
         hdr.getD 6 0 * 256 + hdr.getD 7 0,
         tsb.getD 0 0 + 256 * tsb.getD 1 0 + 65536 * tsb.getD 2 0 +
           16777216 * tsb.getD 3 0 + 4294967296 * tsb.getD 4 0 +
           1099511627776 * tsb.getD 5 0 + 281474976710656 * tsb.getD 6 0 +
           72057594037927936 * tsb.getD 7 0)

/-! ## Checksum lemmas -/

theorem wordSum_eq_toWords16_sum :
    ∀ l : List Nat,
      wordSum l = (toWords16 (if l.length % 2 = 1 then l ++ [0] else l)).sum
  | [] => by simp [wordSum, toWords16]
  | [a] => by simp [wordSum, toWords16]
  | a :: b :: rest => by
    have ih := wordSum_eq_toWords16_sum rest
    have hmod : (a :: b :: rest).length % 2 = rest.length % 2 := by
      simp only [List.length_cons]; omega
    simp only [hmod]
    by_cases h : rest.length % 2 = 1
    · simp [wordSum, toWords16, ih, h]
    · simp [wordSum, toWords16, ih, h]

theorem foldl_wrap32_eq_sum_mod (l : List Nat) :
    l.foldl (fun a w => (a + w) % 4294967296) 0 = l.sum % 4294967296 := by
  suffices h : ∀ (l : List Nat) (a : Nat),
      l.foldl (fun a w => (a + w) % 4294967296) (a % 4294967296) =
        (a + l.sum) % 4294967296 by
    simpa using h l 0
  intro l
  induction l with
  | nil => intro a; simp
  | cons x xs ih =>
    intro a
    simp only [List.foldl_cons, List.sum_cons, Nat.mod_add_mod]
    rw [ih (a + x)]
    omega

/-- C1: `calculate_checksum` computes the standard RFC 1071 Internet checksum
as the spec describes it: for every byte sequence it equals the reference
definition (pad with one zero byte if odd, sum the little-endian 16-bit words
with 32-bit wraparound, fold the carry twice, take the one's complement of
the low 16 bits, convert host to network byte order). -/
theorem c1_calculate_checksum_eq_rfc1071 (l : List Nat) :
    calculate_checksum l = rfc1071_checksum l := by
  simp only [calculate_checksum, rfc1071_checksum, htons16, fold16]
  rw [foldl_wrap32_eq_sum_mod, ← wordSum_eq_toWords16_sum]
  omega

/-! ## The `Pinger` scheduler (`pinger.py`, lines 26-167)

The scheduler state mirrors the `Pinger` instance attributes.  The
`_packets` dict (id -> `{dst_addr, send_time}`) is modelled as an
insertion-ordered association list: `dict` insertion with a fresh key
appends, insertion with an existing key replaces in place, and iteration
(`iteritems`, `itervalues`) follows the list order.  The result callback is
modelled by accumulating the `(host, rtt-or-None)` pairs each handler
invocation emits.  `running` models whether the `pyev` loop is active
(between `loop.start()` and `loop.stop()`). -/

structure PingerState where
  hosts : List String
  pending : List String
  packets : List (Nat × String × Nat)
  id_ : Nat
  seq : Nat
  lastSend : Nat
  timeout : Nat
  packet_limit : Nat
  packet_size : Int
  running : Bool
deriving DecidableEq

/-- One emitted result: `(host, rtt)` where `none` models Python `None`. -/
abbrev Callback := String × Option Nat

/-- Python `dict` assignment `self._packets[packet_id] = {...}` on the
insertion-ordered model: replace in place if the key exists, else append. -/
def insertPacket : List (Nat × String × Nat) → Nat → String → Nat →
    List (Nat × String × Nat)
  | [], pid, dst, t => [(pid, dst, t)]
  | p :: rest, pid, dst, t =>
    if p.1 = pid then (pid, dst, t) :: rest
    else p :: insertPacket rest pid dst t

/-- `self._packets.pop(packet_id)` (line 161): `none` models the `KeyError`
path; on success, returns the record and the remaining table. -/
def popPacket : Nat → List (Nat × String × Nat) →
    Option ((String × Nat) × List (Nat × String × Nat))
  | _, [] => none
  | pid, p :: rest =>
    if p.1 = pid then some (p.2, rest)
    else
      match popPacket pid rest with
      | some (x, rest') => some (x, p :: rest')
      | none => none

/-- The `iteritems` scan of `_try_removing_a_timed_out_packet` (lines
109-115): find the first record whose age exceeds the timeout in the order
in which the table is enumerated, returning it and the table with it
deleted.  The scheduler model enumerates its insertion-ordered list; a
CPython 2.7 dict enumerates its entries in hash/slot order instead, so
which record is found first is order-dependent (`dictIter8` below gives the
faithful order for the C6 configuration), while the count- and length-based
claims are insensitive to the enumeration order. -/
def scanTimedOut : Nat → Nat → List (Nat × String × Nat) →
    Option ((Nat × String × Nat) × List (Nat × String × Nat))
  | _, _, [] => none
  | now, tmo, p :: rest =>
    if tmo < now - p.2.2 then some (p, rest)
    else
      match scanTimedOut now tmo rest with
      | some (q, rest') => some (q, p :: rest')
      | none => none

/-- `Pinger._send` (lines 130-143): allocate the next packet id (lines
145-148, increment-and-wrap), record the outstanding packet, update the
last-send timestamp.  The datagram
`create_icmp_echo_request st.id_ st.seq now st.packet_size` is written to
the raw socket, which the model does not track. -/
def send (now : Nat) (dst : String) (st : PingerState) : PingerState :=
  { st with
    id_ := (st.id_ + 1) % 65536
    packets := insertPacket st.packets st.id_ dst now
    lastSend := now }

/-- `Pinger._try_send` (lines 117-120): send to the host popped from the end
of the pending list if the window has room, else report failure (`None` in
Python).  `list.pop()` on an empty list would raise `IndexError`;
`_on_idle` only calls `_try_send` when `_pending_hosts` is non-empty, so the
`getLastD` default is never reached there. -/
def try_send (now : Nat) (st : PingerState) : Option PingerState :=
  if st.packets.length < st.packet_limit then
    some (send now (st.pending.getLastD "") { st with pending := st.pending.dropLast })
  else
    none

/-- `Pinger._try_removing_a_timed_out_packet` (lines 109-115): evict the
first record in table order whose age exceeds the timeout, emitting
`(host, None)`. -/
def try_removing_a_timed_out_packet (now : Nat) (st : PingerState) :
    PingerState × List Callback :=
  match scanTimedOut now st.timeout st.packets with
  | some (p, rest) => ({ st with packets := rest }, [(p.2.1, none)])
  | none => (st, [])

/-- `Pinger._on_idle` (lines 100-107).  The stop branch models
`self._loop.stop()` followed by `self._send_timeouts()` (lines 125-128):
each remaining record produces a `(host, None)` callback and the table is
cleared.  `st.timeout < now - st.lastSend` is `_have_timed_out`
(lines 122-123). -/
def on_idle (now : Nat) (st : PingerState) : PingerState × List Callback :=
  if st.pending = [] then
    if st.packets = [] ∨ st.timeout < now - st.lastSend then
      ({ st with running := false, packets := [] },
        st.packets.map fun p => (p.2.1, none))
    else
      (st, [])
  else
    match try_send now st with
    | some st' => (st', [])
    | none => try_removing_a_timed_out_packet now st

/-- `Pinger._on_receive` (lines 150-167).  `struct.error` from a truncated
datagram is not caught by the handler and escapes (`Except.error`);
`InvalidIcmpPacketType` is caught and the datagram dropped.  A reply whose
sequence number differs from the round's, or whose id is not outstanding,
is dropped silently.  Otherwise the record is removed and
`(dst, now - time_sent)` is emitted, with `time_sent` taken from the
decoded datagram. -/
def on_receive (now : Nat) (datagram : List Nat) (st : PingerState) :
    Except Unit (PingerState × List Callback) :=
  match parse_icmp_echo_reply datagram with
  | .error .structError => .error ()
  | .error .invalidPacketType => .ok (st, [])
  | .ok (pid, s, tsent) =>
    if s ≠ st.seq then .ok (st, [])
    else
      match popPacket pid st.packets with
      | none => .ok (st, [])
      | some ((dst, _sendTime), packets') =>
        .ok ({ st with packets := packets' }, [(dst, some (now - tsent))])

/-- `Pinger.clear_hosts` (lines 85-88). -/
def clear_hosts (st : PingerState) : PingerState :=
  { st with hosts := [] }

/-- `Pinger.add_host` (lines 80-83). -/
def add_host (h : String) (st : PingerState) : PingerState :=
  { st with hosts := st.hosts ++ [h] }

/-- The synchronous prologue of `Pinger.ping` (lines 90-98): snapshot the
host list into the pending queue, increment the 16-bit round sequence
number with wraparound, start the watchers and the loop. -/
def ping_start (st : PingerState) : PingerState :=
  { st with
    pending := st.hosts
    seq := (st.seq + 1) % 65536
    running := true }

/-- One `pyev` handler invocation: an idle tick or the delivery of an
incoming datagram, each carrying the wall-clock time at which it runs. -/
inductive LoopEvent
  | idle (now : Nat)
  | receive (now : Nat) (datagram : List Nat)
deriving DecidableEq

/-- The event loop: fold the handlers over a trace of invocations,
accumulating emitted callbacks.  After `loop.stop()` (`running = false`) no
further handler runs.  An uncaught exception (`struct.error` escaping
`_on_receive`) aborts the loop with `Except.error`. -/
def runLoop : PingerState → List LoopEvent → List Callback →
    Except Unit (PingerState × List Callback)
  | st, [], acc => .ok (st, acc)
  | st, ev :: rest, acc =>
    if st.running = false then .ok (st, acc)
    else
      match ev with
      | .idle now => runLoop (on_idle now st).1 rest (acc ++ (on_idle now st).2)
      | .receive now datagram =>
        match on_receive now datagram st with
        | .error e => .error e
        | .ok r => runLoop r.1 rest (acc ++ r.2)

/-- `Pinger.ping` (lines 90-98): the prologue followed by the event loop
driven by a trace of handler invocations. -/
def ping (st : PingerState) (evs : List LoopEvent) :
    Except Unit (PingerState × List Callback) :=
  runLoop (ping_start st) evs []

/-! ## Packet layout: claims C8 and C10 -/

theorem calculate_checksum_lt (l : List Nat) : calculate_checksum l < 65536 := by
  unfold calculate_checksum htons16 fold16
  omega

theorem create_icmp_echo_request_length (id_ seq ts : Nat) (size : Int) :
    (create_icmp_echo_request id_ seq ts size).length = 16 + (size - 16).toNat := by
  simp [create_icmp_echo_request, packD]
  omega

/-- C8: for id, seq below 2^16 and size at least 16, `create_icmp_echo_request`
returns exactly `size` bytes: the big-endian 8-byte header
`type=8, code=0, checksum, id, seq`, then a payload of `size - 8` bytes whose
first 8 bytes encode the timestamp and whose remaining `size - 16` bytes are
filler `0x51`; every emitted value is a byte. -/
theorem c8_create_request_layout (id_ seq ts : Nat) (size : Int)
    (hid : id_ < 65536) (hseq : seq < 65536) (hsize : 16 ≤ size) :
    (create_icmp_echo_request id_ seq ts size).length = size.toNat ∧
    (create_icmp_echo_request id_ seq ts size).take 8 =
      [8, 0,
        calculate_checksum ([8, 0, 0, 0, id_ / 256, id_ % 256, seq / 256, seq % 256] ++
          (packD ts ++ List.replicate (size - 16).toNat 81)) / 256,
        calculate_checksum ([8, 0, 0, 0, id_ / 256, id_ % 256, seq / 256, seq % 256] ++
          (packD ts ++ List.replicate (size - 16).toNat 81)) % 256,
        id_ / 256, id_ % 256, seq / 256, seq % 256] ∧
    ((create_icmp_echo_request id_ seq ts size).drop 8).length = (size - 8).toNat ∧
    ((create_icmp_echo_request id_ seq ts size).drop 8).take 8 = packD ts ∧
    (create_icmp_echo_request id_ seq ts size).drop 16 =
      List.replicate (size - 16).toNat 81 ∧
    ∀ x ∈ create_icmp_echo_request id_ seq ts size, x < 256 := by
  refine ⟨?_, ?_, ?_, ?_, ?_, ?_⟩
  · rw [create_icmp_echo_request_length]; omega
  · rfl
  · simp only [create_icmp_echo_request, List.drop_succ_cons, List.cons_append,
      List.nil_append, List.drop_zero, List.length_append, List.length_replicate]
    simp [packD]
    omega
  · rfl
  · rfl
  · intro x hx
    have hck := calculate_checksum_lt (8 :: 0 :: 0 :: 0 :: id_ / 256 :: id_ % 256 ::
      seq / 256 :: seq % 256 :: ts % 256 :: ts / 256 % 256 :: ts / 65536 % 256 ::
      ts / 16777216 % 256 :: ts / 4294967296 % 256 :: ts / 1099511627776 % 256 ::
      ts / 281474976710656 % 256 :: ts / 72057594037927936 % 256 ::
      List.replicate (size - 16).toNat 81)
    simp only [create_icmp_echo_request, packD, List.cons_append, List.nil_append,
      List.mem_cons, List.mem_append, List.mem_replicate] at hx
    omega

theorem c8_create_request_layout_witness :
    (1 : Nat) < 65536 ∧ (2 : Nat) < 65536 ∧ (16 : Int) ≤ 64 ∧
      (create_icmp_echo_request 1 2 3 64).length = (64 : Int).toNat :=
  ⟨by decide, by decide, by decide,
    (c8_create_request_layout 1 2 3 64 (by decide) (by decide) (by decide)).1⟩

/-- C10: for size below 16 (including negative sizes) the filler count
`size - 16` is clamped to the empty string by Python's negative string
repetition, so `create_icmp_echo_request` neither rejects nor raises: it
returns the same 16-byte packet as `size = 16` (header plus timestamp, no
filler), and in general the output length is `max size 16`. -/
theorem c10_create_request_small_size (id_ seq ts : Nat) (size s2 : Int)
    (hsize : size < 16) :
    create_icmp_echo_request id_ seq ts size = create_icmp_echo_request id_ seq ts 16 ∧
    (create_icmp_echo_request id_ seq ts size).length = 16 ∧
    (create_icmp_echo_request id_ seq ts size).drop 16 = [] ∧
    (create_icmp_echo_request id_ seq ts s2).length = (max s2 16).toNat := by
  have h0 : (size - 16).toNat = 0 := by omega
  have h16 : ((16 : Int) - 16).toNat = 0 := by decide
  refine ⟨?_, ?_, ?_, ?_⟩
  · simp only [create_icmp_echo_request, h0, h16]
  · rw [create_icmp_echo_request_length]; omega
  · simp only [create_icmp_echo_request, h0, List.replicate_zero]; rfl
  · rw [create_icmp_echo_request_length]
    rcases le_total s2 16 with h | h
    · rw [max_eq_right h]; omega
    · rw [max_eq_left h]; omega

theorem c10_create_request_small_size_witness :
    ((10 : Int) < 16) ∧ (create_icmp_echo_request 1 2 3 10).length = 16 :=
  ⟨by decide, (c10_create_request_small_size 1 2 3 10 7 (by decide)).2.1⟩


/-! ## Error handling of incoming datagrams: claim C4 -/

/-- A freshly constructed `Pinger` with the default configuration
(`timeout=1`, `packet_limit=1000`, `packet_size=64`) and no hosts. -/
def pingerBase : PingerState :=
  { hosts := [], pending := [], packets := [], id_ := 0, seq := 0,
    lastSend := 0, timeout := 1, packet_limit := 1000, packet_size := 64,
    running := false }

theorem getD_slice8 (pkt : List Nat) (a i : Nat) (h : i < 8) :
    ((pkt.drop a).take 8).getD i 0 = pkt.getD (a + i) 0 := by
  rw [List.getD_eq_getElem?_getD, List.getElem?_take_of_lt h, List.getElem?_drop,
    ← List.getD_eq_getElem?_getD]

theorem parse_structError_of_short (pkt : List Nat) (h : pkt.length < 28) :
    parse_icmp_echo_reply pkt = .error .structError := by
  simp only [parse_icmp_echo_reply]
  rw [if_pos h]

theorem parse_invalidPacketType_of_type_nonzero (pkt : List Nat)
    (h28 : 28 ≤ pkt.length) (ht : pkt.getD 20 0 ≠ 0) :
    parse_icmp_echo_reply pkt = .error .invalidPacketType := by
  have h0 : ((pkt.drop 20).take 8).getD 0 0 ≠ 0 := by
    rw [getD_slice8 pkt 20 0 (by omega)]; simpa using ht
  simp only [parse_icmp_echo_reply]
  rw [if_neg (by omega), if_pos h0]

theorem parse_structError_of_type0_short (pkt : List Nat)
    (h28 : 28 ≤ pkt.length) (ht : pkt.getD 20 0 = 0) (h36 : pkt.length < 36) :
    parse_icmp_echo_reply pkt = .error .structError := by
  have h0 : ¬ ((pkt.drop 20).take 8).getD 0 0 ≠ 0 := by
    rw [getD_slice8 pkt 20 0 (by omega)]; simpa using ht
  simp only [parse_icmp_echo_reply]
  rw [if_neg (by omega), if_neg h0, if_pos h36]

/-- Counterexample to C4 as stated: a 28-byte all-zero datagram is too short
to contain the 8-byte timestamp, and instead of being discarded recoverably
it makes `struct.unpack` raise `struct.error`, which `_on_receive` does not
catch: the exception escapes the handler instead of processing continuing. -/
theorem c4_counterexample_truncated_datagram_crashes :
    parse_icmp_echo_reply (List.replicate 28 0) = .error .structError ∧
    on_receive 0 (List.replicate 28 0) pingerBase = .error () :=
  ⟨rfl, rfl⟩

/-- C4 (amended): a datagram of at least 28 bytes whose ICMP type byte (at
offset 20) is nonzero fails with the recoverable `InvalidPacketType` and the
receive path discards it and continues with unchanged state; but a datagram
too short for the header (under 28 bytes) or for the timestamp (type 0,
under 36 bytes) raises `struct.error`, which the receive path does not
catch, so the error escapes instead of the datagram being discarded. -/
theorem c4_wrong_type_recoverable_truncation_uncaught (pkt qkt : List Nat)
    (st : PingerState) (now now2 : Nat)
    (hp28 : 28 ≤ pkt.length) (hptype : pkt.getD 20 0 ≠ 0)
    (hq36 : qkt.length < 36)
    (hqcase : qkt.length < 28 ∨ qkt.getD 20 0 = 0) :
    parse_icmp_echo_reply pkt = .error .invalidPacketType ∧
    on_receive now pkt st = .ok (st, []) ∧
    parse_icmp_echo_reply qkt = .error .structError ∧
    on_receive now2 qkt st = .error () := by
  have h1 := parse_invalidPacketType_of_type_nonzero pkt hp28 hptype
  have h3 : parse_icmp_echo_reply qkt = .error .structError := by
    by_cases hlen : qkt.length < 28
    · exact parse_structError_of_short qkt hlen
    · rcases hqcase with h | h
      · exact absurd h hlen
      · exact parse_structError_of_type0_short qkt (by omega) h hq36
  refine ⟨h1, ?_, h3, ?_⟩
  · unfold on_receive; rw [h1]
  · unfold on_receive; rw [h3]

theorem c4_wrong_type_recoverable_truncation_uncaught_witness :
    (28 ≤ (List.replicate 20 0 ++ 3 :: List.replicate 15 (0 : Nat)).length ∧
      (List.replicate 20 0 ++ 3 :: List.replicate 15 (0 : Nat)).getD 20 0 ≠ 0 ∧
      (List.replicate 30 (0 : Nat)).length < 36 ∧
      ((List.replicate 30 (0 : Nat)).length < 28 ∨
        (List.replicate 30 (0 : Nat)).getD 20 0 = 0)) ∧
    (parse_icmp_echo_reply (List.replicate 20 0 ++ 3 :: List.replicate 15 0) =
        .error .invalidPacketType ∧
      on_receive 1 (List.replicate 20 0 ++ 3 :: List.replicate 15 0) pingerBase =
        .ok (pingerBase, []) ∧
      parse_icmp_echo_reply (List.replicate 30 0) = .error .structError ∧
      on_receive 2 (List.replicate 30 0) pingerBase = .error ()) :=
  ⟨⟨by decide, by decide, by decide, by decide⟩,
    c4_wrong_type_recoverable_truncation_uncaught _ _ pingerBase 1 2
      (by decide) (by decide) (by decide) (by decide)⟩

/-! ## Sequence counter and stale replies: claim C7 -/

theorem on_idle_seq (n : Nat) (st : PingerState) : (on_idle n st).1.seq = st.seq := by
  unfold on_idle
  by_cases h : st.pending = []
  · rw [if_pos h]; split <;> rfl
  · rw [if_neg h]
    unfold try_send
    by_cases h2 : st.packets.length < st.packet_limit
    · rw [if_pos h2]
      rfl
    · rw [if_neg h2]
      show (try_removing_a_timed_out_packet n st).1.seq = st.seq
      unfold try_removing_a_timed_out_packet
      split <;> rfl

/-- C7: the round sequence number is a single 16-bit counter incremented with
wraparound exactly once per `ping()` invocation (an idle tick never touches
it), and an incoming reply decoding to a different sequence number than the
current round's is discarded silently: no callback and an unchanged state. -/
theorem c7_sequence_counter_and_stale_discard (st : PingerState) (pkt : List Nat)
    (now n pid s tsent : Nat)
    (hparse : parse_icmp_echo_reply pkt = .ok (pid, s, tsent))
    (hstale : s ≠ st.seq) :
    (ping_start st).seq = (st.seq + 1) % 65536 ∧
    (on_idle n st).1.seq = st.seq ∧
    on_receive now pkt st = .ok (st, []) := by
  refine ⟨rfl, on_idle_seq n st, ?_⟩
  unfold on_receive
  rw [hparse]
  simp [hstale]

/-- A well-formed 36-byte echo-reply datagram carrying id 5, sequence 7 and
timestamp 0, used to exercise the stale-reply path. -/
def staleDatagram : List Nat :=
  List.replicate 20 0 ++ [0, 0, 0, 0, 0, 5, 0, 7] ++ List.replicate 8 0

theorem c7_sequence_counter_and_stale_discard_witness :
    (parse_icmp_echo_reply staleDatagram = .ok (5, 7, 0) ∧
      (7 : Nat) ≠ pingerBase.seq) ∧
    ((ping_start pingerBase).seq = (pingerBase.seq + 1) % 65536 ∧
      (on_idle 4 pingerBase).1.seq = pingerBase.seq ∧
      on_receive 3 staleDatagram pingerBase = .ok (pingerBase, [])) :=
  ⟨⟨rfl, by decide⟩,
    c7_sequence_counter_and_stale_discard pingerBase staleDatagram 3 4 5 7 0
      rfl (by decide)⟩

/-! ## `clear_hosts`: claim C9 -/

theorem on_receive_no_packets (now : Nat) (d : List Nat) (st : PingerState)
    (h : st.packets = []) :
    on_receive now d st = .error () ∨ on_receive now d st = .ok (st, []) := by
  unfold on_receive
  rcases hp : parse_icmp_echo_reply d with e | ⟨pid, s, tsent⟩
  · cases e
    · right; rfl
    · left; rfl
  · by_cases hs : s ≠ st.seq
    · right; simp [hs]
    · right; simp [hs, h, popPacket]

theorem runLoop_no_work (evs : List LoopEvent) :
    ∀ (st : PingerState) (acc : List Callback) (fin : PingerState)
      (cbs : List Callback), st.pending = [] → st.packets = [] →
      runLoop st evs acc = .ok (fin, cbs) → cbs = acc := by
  induction evs with
  | nil =>
    intro st acc fin cbs _ _ h
    simp only [runLoop, Except.ok.injEq, Prod.mk.injEq] at h
    exact h.2.symm
  | cons ev rest ih =>
    intro st acc fin cbs h1 h2 h
    cases ev with
    | idle now =>
      simp only [runLoop] at h
      by_cases hrun : st.running = false
      · rw [if_pos hrun] at h
        simp only [Except.ok.injEq, Prod.mk.injEq] at h
        exact h.2.symm
      · rw [if_neg hrun] at h
        have hidle : on_idle now st =
            ({ st with running := false, packets := [] }, []) := by
          unfold on_idle
          rw [if_pos h1, if_pos (Or.inl h2), h2]
          rfl
        rw [hidle] at h
        simpa using ih { st with running := false, packets := [] } (acc ++ [])
          fin cbs h1 rfl h
    | receive now d =>
      simp only [runLoop] at h
      by_cases hrun : st.running = false
      · rw [if_pos hrun] at h
        simp only [Except.ok.injEq, Prod.mk.injEq] at h
        exact h.2.symm
      · rw [if_neg hrun] at h
        rcases on_receive_no_packets now d st h2 with he | he
        · rw [he] at h
          exact absurd h (by simp)
        · rw [he] at h
          simpa using ih _ _ _ _ h1 h2 h

/-- C9: `clear_hosts` empties only the host list, leaving the pending queue,
the outstanding-packet table, the sequence number and the packet-id counter
unchanged; and a `ping()` round started after `clear_hosts` (from a state
with no outstanding packets, as between rounds) emits zero callbacks however
the loop is driven. -/
theorem c9_clear_hosts_frame_and_no_callbacks (st : PingerState)
    (evs : List LoopEvent) (fin : PingerState) (cbs : List Callback)
    (hpk : st.packets = [])
    (hrun : ping (clear_hosts st) evs = .ok (fin, cbs)) :
    (clear_hosts st).hosts = [] ∧
    (clear_hosts st).pending = st.pending ∧
    (clear_hosts st).packets = st.packets ∧
    (clear_hosts st).seq = st.seq ∧
    (clear_hosts st).id_ = st.id_ ∧
    cbs = [] := by
  exact ⟨rfl, rfl, rfl, rfl, rfl,
    runLoop_no_work evs (ping_start (clear_hosts st)) [] fin cbs rfl hpk hrun⟩

theorem c9_clear_hosts_frame_and_no_callbacks_witness :
    (pingerBase.packets = [] ∧
      ping (clear_hosts pingerBase) [.idle 5] =
        .ok ({ hosts := [], pending := [], packets := [], id_ := 0, seq := 1,
               lastSend := 0, timeout := 1, packet_limit := 1000,
               packet_size := 64, running := false }, [])) ∧
    (clear_hosts pingerBase).hosts = [] ∧ ([] : List Callback) = [] :=
  ⟨⟨rfl, rfl⟩,
    (c9_clear_hosts_frame_and_no_callbacks pingerBase [.idle 5] _ [] rfl rfl).1,
    (c9_clear_hosts_frame_and_no_callbacks pingerBase [.idle 5] _ [] rfl rfl).2.2.2.2.2⟩

/-! ## Timeout eviction under a full window: claim C6 -/

theorem scanTimedOut_sound (now tmo : Nat) :
    ∀ (l rest' : List (Nat × String × Nat)) (q : Nat × String × Nat),
      scanTimedOut now tmo l = some (q, rest') →
      tmo < now - q.2.2 ∧
      ∃ l1 l2, l = l1 ++ q :: l2 ∧ rest' = l1 ++ l2 ∧
        ∀ r ∈ l1, ¬ tmo < now - r.2.2
  | [], _, _, h => by simp [scanTimedOut] at h
  | p :: rest, rest', q, h => by
    simp only [scanTimedOut] at h
    by_cases hp : tmo < now - p.2.2
    · rw [if_pos hp] at h
      simp only [Option.some.injEq, Prod.mk.injEq] at h
      obtain ⟨rfl, rfl⟩ := h
      exact ⟨hp, [], rest, rfl, rfl, by simp⟩
    · rw [if_neg hp] at h
      rcases hm : scanTimedOut now tmo rest with - | ⟨q', rest''⟩ <;> rw [hm] at h
      · exact absurd h (by simp)
      · simp only [Option.some.injEq, Prod.mk.injEq] at h
        obtain ⟨rfl, rfl⟩ := h
        obtain ⟨hqt, l1, l2, hl, hr, hl1⟩ :=
          scanTimedOut_sound now tmo rest rest'' q' hm
        refine ⟨hqt, p :: l1, l2, by simp [hl], by simp [hr], ?_⟩
        intro r hr'
        rcases List.mem_cons.mp hr' with rfl | hr''
        · exact hp
        · exact hl1 r hr''

/-- The order in which a CPython 2.7 `dict` holding the outstanding-packet
table enumerates its records (`iteritems()`, line 111): ascending hash-slot
order.  Faithful for a table of at most 5 records whose small nonnegative
integer ids (which hash to themselves) occupy distinct slots `id % 8`: such
a dict still has its initial 8 slots (a resize happens only above 2/3 of 8
entries) and no open-addressing probing occurs. -/
def dictIter8 (tbl : List (Nat × String × Nat)) : List (Nat × String × Nat) :=
  ((List.range 8).map fun s => tbl.filter fun p => p.1 % 8 == s).flatten

/-- `Pinger._try_removing_a_timed_out_packet` (lines 109-115) with
`iteritems()` enumerating the records in the CPython 2.7 hash/slot order
`dictIter8` (faithful on that definition's documented domain): evict the
first record in that order whose age exceeds the timeout, emitting
`(host, None)`. -/
def try_removing_dict8 (now : Nat) (st : PingerState) :
    PingerState × List Callback :=
  match scanTimedOut now st.timeout (dictIter8 st.packets) with
  | some (p, rest) => ({ st with packets := rest }, [(p.2.1, none)])
  | none => (st, [])

/-- A scheduler state mid-round: five sends with packet ids 6-10 (allocated
in that order, send timestamps 0-4), none answered, a window of 5 that is
full, one pending host left.  The ids occupy the distinct dict slots
6, 7, 0, 1, 2, so the CPython 2.7 dict enumerates them as 8, 9, 10, 6, 7. -/
def c6DictState : PingerState :=
  { hosts := ["X"], pending := ["X"],
    packets := [(6, "H6", 0), (7, "H7", 1), (8, "H8", 2), (9, "H9", 3),
                (10, "H10", 4)],
    id_ := 11, seq := 1, lastSend := 4, timeout := 100, packet_limit := 5,
    packet_size := 64, running := true }

/-- Counterexample to C6 as stated: with the window full, a pending host
remaining and every outstanding record exceeding the timeout, the scan of
lines 110-113 iterates the CPython 2.7 dict in hash/slot order
8, 9, 10, 6, 7 — not insertion order — and evicts the id-8 record (host
"H8", sent at time 2), although the outstanding id-6 record (host "H6",
sent strictly earlier, at time 0) also exceeds the timeout: the evicted
record is not the oldest-exceeding one. -/
theorem c6_counterexample_dict_order_not_oldest :
    (¬ c6DictState.pending = [] ∧
      ¬ c6DictState.packets.length < c6DictState.packet_limit ∧
      ∀ p ∈ c6DictState.packets, c6DictState.timeout < 2000 - p.2.2) ∧
    dictIter8 c6DictState.packets =
      [(8, "H8", 2), (9, "H9", 3), (10, "H10", 4), (6, "H6", 0),
        (7, "H7", 1)] ∧
    try_removing_dict8 2000 c6DictState =
      ({ c6DictState with packets :=
          [(9, "H9", 3), (10, "H10", 4), (6, "H6", 0), (7, "H7", 1)] },
        [("H8", none)]) ∧
    (6, "H6", 0) ∈ c6DictState.packets ∧ (0 : Nat) < 2 ∧ "H6" ≠ "H8" := by
  decide

/-- C6 (corrected): when the pending queue is non-empty and the window is
full, the idle tick scans the outstanding records with `iteritems()` and,
if the scan finds a record whose age exceeds the configured timeout, evicts
it, emits `(host, None)` via the callback for it, and frees exactly one
window slot.  The evicted record is the first exceeding one in the order in
which the dict enumerates its records — under CPython 2.7 that is
hash/slot order, not send order, so it need not be the oldest-exceeding
record (`c6_counterexample_dict_order_not_oldest`).  The first conjunct
states the eviction under the faithful hash/slot order `dictIter8` (the
permutation hypothesis holds whenever `dictIter8` is on its documented
domain and is checked concretely in the witness); the `on_idle` equation is
stated in the model's table order. -/
theorem c6_full_window_evicts_a_timed_out (st : PingerState) (now : Nat)
    (q : Nat × String × Nat) (restq : List (Nat × String × Nat))
    (p : Nat × String × Nat) (rest : List (Nat × String × Nat))
    (hpend : ¬ st.pending = [])
    (hfull : ¬ st.packets.length < st.packet_limit)
    (hperm : (dictIter8 st.packets).Perm st.packets)
    (hscanIter : scanTimedOut now st.timeout (dictIter8 st.packets) =
      some (q, restq))
    (hscan : scanTimedOut now st.timeout st.packets = some (p, rest)) :
    (try_removing_dict8 now st =
        ({ st with packets := restq }, [(q.2.1, none)]) ∧
      st.timeout < now - q.2.2 ∧ q ∈ st.packets ∧
      restq.length + 1 = st.packets.length ∧
      ∃ l1 l2, dictIter8 st.packets = l1 ++ q :: l2 ∧ restq = l1 ++ l2 ∧
        ∀ r ∈ l1, ¬ st.timeout < now - r.2.2) ∧
    on_idle now st = ({ st with packets := rest }, [(p.2.1, none)]) ∧
    rest.length + 1 = st.packets.length := by
  obtain ⟨hexq, l1, l2, hl, hr, hl1⟩ :=
    scanTimedOut_sound now st.timeout (dictIter8 st.packets) restq q hscanIter
  obtain ⟨hexp, m1, m2, hm, hmr, hm1⟩ :=
    scanTimedOut_sound now st.timeout st.packets rest p hscan
  have hqmem : q ∈ st.packets := by
    refine hperm.subset ?_
    rw [hl]
    exact List.mem_append.mpr (Or.inr (List.mem_cons_self q l2))
  have hlen : (dictIter8 st.packets).length = st.packets.length :=
    hperm.length_eq
  refine ⟨⟨?_, hexq, hqmem, ?_, l1, l2, hl, hr, hl1⟩, ?_, ?_⟩
  · unfold try_removing_dict8
    rw [hscanIter]
  · rw [hl] at hlen
    rw [hr]
    simp only [List.length_append, List.length_cons] at hlen ⊢
    omega
  · unfold on_idle try_send try_removing_a_timed_out_packet
    rw [if_neg hpend, if_neg hfull]
    show (match scanTimedOut now st.timeout st.packets with
      | some (p, rest) => ({ st with packets := rest }, [(p.2.1, none)])
      | none => (st, [])) = _
    rw [hscan]
  · rw [hmr, hm]
    simp only [List.length_append, List.length_cons]
    omega

theorem c6_full_window_evicts_a_timed_out_witness :
    (¬ c6DictState.pending = [] ∧
      ¬ c6DictState.packets.length < c6DictState.packet_limit ∧
      (dictIter8 c6DictState.packets).Perm c6DictState.packets ∧
      scanTimedOut 2000 c6DictState.timeout (dictIter8 c6DictState.packets) =
        some ((8, "H8", 2),
          [(9, "H9", 3), (10, "H10", 4), (6, "H6", 0), (7, "H7", 1)]) ∧
      scanTimedOut 2000 c6DictState.timeout c6DictState.packets =
        some ((6, "H6", 0),
          [(7, "H7", 1), (8, "H8", 2), (9, "H9", 3), (10, "H10", 4)])) ∧
    ((try_removing_dict8 2000 c6DictState =
        ({ c6DictState with packets :=
            [(9, "H9", 3), (10, "H10", 4), (6, "H6", 0), (7, "H7", 1)] },
          [("H8", none)]) ∧
      c6DictState.timeout < 2000 - 2 ∧
      (8, "H8", 2) ∈ c6DictState.packets ∧
      ([(9, "H9", 3), (10, "H10", 4), (6, "H6", 0), (7, "H7", 1)] :
          List (Nat × String × Nat)).length + 1 =
        c6DictState.packets.length ∧
      ∃ l1 l2, dictIter8 c6DictState.packets = l1 ++ (8, "H8", 2) :: l2 ∧
        [(9, "H9", 3), (10, "H10", 4), (6, "H6", 0), (7, "H7", 1)] =
          l1 ++ l2 ∧
        ∀ r ∈ l1, ¬ c6DictState.timeout < 2000 - r.2.2) ∧
    on_idle 2000 c6DictState =
      ({ c6DictState with packets :=
          [(7, "H7", 1), (8, "H8", 2), (9, "H9", 3), (10, "H10", 4)] },
        [("H6", none)]) ∧
    ([(7, "H7", 1), (8, "H8", 2), (9, "H9", 3), (10, "H10", 4)] :
        List (Nat × String × Nat)).length + 1 =
      c6DictState.packets.length) :=
  ⟨⟨by decide, by decide, by decide, by decide, by decide⟩,
    c6_full_window_evicts_a_timed_out c6DictState 2000 (8, "H8", 2)
      [(9, "H9", 3), (10, "H10", 4), (6, "H6", 0), (7, "H7", 1)]
      (6, "H6", 0) [(7, "H7", 1), (8, "H8", 2), (9, "H9", 3), (10, "H10", 4)]
      (by decide) (by decide) (by decide) (by decide) (by decide)⟩

/-- A scheduler state with a full two-packet window, a pending host, and one
record old enough to have timed out. -/
def c6State : PingerState :=
  { hosts := ["X"], pending := ["X"], packets := [(1, "A", 5), (2, "B", 9)],
    id_ := 3, seq := 1, lastSend := 9, timeout := 3, packet_limit := 2,
    packet_size := 64, running := true }

/-! ## Checksum verification and single-bit corruption: claim C5 -/

/-- The checksum value `create_icmp_echo_request` embeds in the header: the
checksum of the packet with the checksum field held at zero (lines 184-192
of the source). -/
def request_checksum (id_ seq ts : Nat) (size : Int) : Nat :=
  calculate_checksum ([8, 0, 0, 0, id_ / 256, id_ % 256, seq / 256, seq % 256] ++
    (packD ts ++ List.replicate (size - 16).toNat 81))

theorem create_icmp_echo_request_eq (id_ seq ts : Nat) (size : Int) :
    create_icmp_echo_request id_ seq ts size =
      [8, 0, request_checksum id_ seq ts size / 256,
        request_checksum id_ seq ts size % 256,
        id_ / 256, id_ % 256, seq / 256, seq % 256] ++
      (packD ts ++ List.replicate (size - 16).toNat 81) := rfl

theorem create_bytes_lt (id_ seq ts : Nat) (size : Int)
    (hid : id_ < 65536) (hseq : seq < 65536) :
    ∀ x ∈ create_icmp_echo_request id_ seq ts size, x < 256 := by
  intro x hx
  rw [create_icmp_echo_request_eq] at hx
  simp only [request_checksum, packD, List.cons_append, List.nil_append,
    List.mem_cons, List.mem_append, List.mem_replicate] at hx
  have hck := calculate_checksum_lt (8 :: 0 :: 0 :: 0 :: id_ / 256 :: id_ % 256 ::
    seq / 256 :: seq % 256 :: ts % 256 :: ts / 256 % 256 :: ts / 65536 % 256 ::
    ts / 16777216 % 256 :: ts / 4294967296 % 256 :: ts / 1099511627776 % 256 ::
    ts / 281474976710656 % 256 :: ts / 72057594037927936 % 256 ::
    List.replicate (size - 16).toNat 81)
  omega

theorem fold16_facts (v : Nat) (h : v < 4294967296) :
    fold16 v ≤ 65535 ∧ fold16 v % 65535 = v % 65535 ∧ (fold16 v = 0 ↔ v = 0) := by
  have h1 : v / 65536 < 65536 := by omega
  have h2 : v = 65536 * (v / 65536) + v % 65536 := by omega
  unfold fold16
  by_cases hF : v / 65536 + v % 65536 < 65536
  · rw [Nat.div_eq_of_lt hF, Nat.add_zero, Nat.mod_eq_of_lt hF]
    omega
  · have hd : (v / 65536 + v % 65536) / 65536 = 1 := by omega
    rw [hd]
    have hm : (v / 65536 + v % 65536 + 1) % 65536 =
        v / 65536 + v % 65536 - 65535 := by omega
    rw [hm]
    omega

theorem wordSum_le :
    ∀ l : List Nat, (∀ x ∈ l, x < 256) → wordSum l ≤ 65536 * l.length
  | [], _ => by simp [wordSum]
  | [a], h => by
    have := h a (by simp)
    simp [wordSum]
    omega
  | a :: b :: rest, h => by
    have ha := h a (by simp)
    have hb := h b (by simp)
    have ih := wordSum_le rest (fun x hx => h x (by simp [hx]))
    simp only [wordSum, List.length_cons]
    omega

/-- The little-endian weight of byte position `i` inside its 16-bit word. -/
def bitWeight (i : Nat) : Nat :=
  if i % 2 = 0 then 1 else 256

theorem wordSum_set :
    ∀ (l : List Nat) (i : Nat) (c' : Nat), i < l.length →
      wordSum (l.set i c') + l.getD i 0 * bitWeight i =
        wordSum l + c' * bitWeight i
  | [], i, _, h => absurd h (by simp)
  | [a], 0, c', _ => by simp [wordSum, bitWeight]; omega
  | [_], i + 1, _, h => by simp at h
  | a :: b :: rest, 0, c', _ => by
    simp only [List.set_cons_zero, wordSum, List.getD_cons_zero, bitWeight]
    norm_num
    omega
  | a :: b :: rest, 1, c', _ => by
    simp only [List.set_cons_succ, List.set_cons_zero, wordSum,
      List.getD_cons_succ, List.getD_cons_zero, bitWeight]
    norm_num
    omega
  | a :: b :: rest, i + 2, c', h => by
    have ih := wordSum_set rest i c' (by simp at h; omega)
    have hw : bitWeight (i + 2) = bitWeight i := by
      simp [bitWeight, Nat.add_mod]
    simp only [List.set_cons_succ, wordSum, List.getD_cons_succ, hw]
    omega

/-- Flip bit `b` of byte `c`: the byte with that bit toggled (for `c < 256`,
`b < 8` this is `c XOR 2^b`, written arithmetically). -/
def flipByteBit (c b : Nat) : Nat :=
  if c / 2 ^ b % 2 = 1 then c - 2 ^ b else c + 2 ^ b

theorem flipByteBit_cases (c b : Nat) (hb : b < 8) :
    flipByteBit c b + 2 ^ b = c ∨ flipByteBit c b = c + 2 ^ b := by
  unfold flipByteBit
  interval_cases b <;> split <;> omega

theorem getD_mem_of_lt (l : List Nat) (i : Nat) (h : i < l.length) :
    l.getD i 0 ∈ l := by
  rw [List.getD_eq_getElem?_getD, List.getElem?_eq_getElem h]
  simp

/-- A packet whose header embeds the checksum computed over the same packet
with a zeroed checksum field verifies: its own Internet checksum is 0. -/
theorem checksum_with_embedded (t : List Nat) (hlen : t.length ≤ 60000)
    (hbytes : ∀ x ∈ t, x < 256) :
    calculate_checksum (8 :: 0 ::
      (calculate_checksum (8 :: 0 :: 0 :: 0 :: t) / 256) ::
      (calculate_checksum (8 :: 0 :: 0 :: 0 :: t) % 256) :: t) = 0 := by
  have hb4 : ∀ x ∈ (8 : Nat) :: 0 :: 0 :: 0 :: t, x < 256 := by
    intro x hx
    simp only [List.mem_cons] at hx
    rcases hx with rfl | rfl | rfl | rfl | hx
    · omega
    · omega
    · omega
    · omega
    · exact hbytes x hx
  have hle := wordSum_le _ hb4
  have hlen4 : ((8 : Nat) :: 0 :: 0 :: 0 :: t).length = t.length + 4 := by simp
  rw [hlen4] at hle
  have hf1 := fold16_facts (wordSum ((8 : Nat) :: 0 :: 0 :: 0 :: t)) (by omega)
  set ck := calculate_checksum ((8 : Nat) :: 0 :: 0 :: 0 :: t) with hckdef
  have hck2 : ck =
      (65535 - fold16 (wordSum ((8 : Nat) :: 0 :: 0 :: 0 :: t))) % 256 * 256 +
        (65535 - fold16 (wordSum ((8 : Nat) :: 0 :: 0 :: 0 :: t))) / 256 := by
    rw [hckdef]
    show htons16 (65535 - fold16 (wordSum ((8 : Nat) :: 0 :: 0 :: 0 :: t)
      % 4294967296)) = _
    rw [Nat.mod_eq_of_lt (by omega)]
    rfl
  have e1 : wordSum (8 :: 0 :: ck / 256 :: ck % 256 :: t) =
      (8 + 256 * 0) + ((ck / 256 + 256 * (ck % 256)) + wordSum t) := rfl
  have e2 : wordSum ((8 : Nat) :: 0 :: 0 :: 0 :: t) =
      (8 + 256 * 0) + ((0 + 256 * 0) + wordSum t) := rfl
  have hW' : wordSum (8 :: 0 :: ck / 256 :: ck % 256 :: t) < 4294967296 := by omega
  have hf2 := fold16_facts (wordSum (8 :: 0 :: ck / 256 :: ck % 256 :: t)) hW'
  show htons16 (65535 -
    fold16 (wordSum (8 :: 0 :: ck / 256 :: ck % 256 :: t) % 4294967296)) = 0
  rw [Nat.mod_eq_of_lt hW']
  unfold htons16
  omega

/-- C5 support: every request built by `create_icmp_echo_request` verifies
(checksumming the emitted packet, embedded checksum included, yields 0). -/
theorem request_verifies (id_ seq ts : Nat) (size : Int)
    (hid : id_ < 65536) (hseq : seq < 65536) (hsize : size ≤ 60000) :
    calculate_checksum (create_icmp_echo_request id_ seq ts size) = 0 := by
  have hlen : (id_ / 256 :: id_ % 256 :: seq / 256 :: seq % 256 ::
      (packD ts ++ List.replicate (size - 16).toNat 81)).length ≤ 60000 := by
    simp [packD]
    omega
  have hbytes : ∀ x ∈ id_ / 256 :: id_ % 256 :: seq / 256 :: seq % 256 ::
      (packD ts ++ List.replicate (size - 16).toNat 81), x < 256 := by
    intro x hx
    simp [packD] at hx
    omega
  exact checksum_with_embedded
    (id_ / 256 :: id_ % 256 :: seq / 256 :: seq % 256 ::
      (packD ts ++ List.replicate (size - 16).toNat 81)) hlen hbytes

theorem flip_delta (W W' c cf w d : Nat)
    (hset : W' + c * w = W + cf * w)
    (hflip : cf + d = c ∨ cf = c + d) :
    W' + d * w = W ∨ W' = W + d * w := by
  rcases hflip with hf | hf
  · left
    rw [← hf, add_mul] at hset
    omega
  · right
    rw [hf, add_mul] at hset
    omega

/-- C5 support: flipping any single bit of an emitted request changes its
verification sum away from 0, so the corruption is detectable. -/
theorem request_corrupt_detectable (id_ seq ts : Nat) (size : Int)
    (hid : id_ < 65536) (hseq : seq < 65536) (hsize16 : 16 ≤ size)
    (hsize : size ≤ 60000) (i b : Nat)
    (hi : i < (create_icmp_echo_request id_ seq ts size).length) (hb : b < 8) :
    calculate_checksum ((create_icmp_echo_request id_ seq ts size).set i
      (flipByteBit ((create_icmp_echo_request id_ seq ts size).getD i 0) b)) ≠ 0 := by
  have hbytesp := create_bytes_lt id_ seq ts size hid hseq
  have hple := wordSum_le _ hbytesp
  have hplen : (create_icmp_echo_request id_ seq ts size).length =
      16 + (size - 16).toNat := create_icmp_echo_request_length id_ seq ts size
  rw [hplen] at hple
  have hWp : wordSum (create_icmp_echo_request id_ seq ts size) < 4227858432 := by
    omega
  have hfp := fold16_facts (wordSum (create_icmp_echo_request id_ seq ts size))
    (by omega)
  have hver := request_verifies id_ seq ts size hid hseq hsize
  have hver2 : (65535 - fold16 (wordSum (create_icmp_echo_request id_ seq ts size)))
        % 256 * 256 +
      (65535 - fold16 (wordSum (create_icmp_echo_request id_ seq ts size))) / 256
        = 0 := by
    have hv : htons16 (65535 - fold16 (wordSum (create_icmp_echo_request id_ seq ts
        size) % 4294967296)) = 0 := hver
    rw [Nat.mod_eq_of_lt (by omega)] at hv
    exact hv
  -- the flipped byte
  have hc := hbytesp _ (getD_mem_of_lt _ i hi)
  have hset := wordSum_set (create_icmp_echo_request id_ seq ts size) i
    (flipByteBit ((create_icmp_echo_request id_ seq ts size).getD i 0) b) hi
  have hflip := flipByteBit_cases ((create_icmp_echo_request id_ seq ts size).getD i 0)
    b hb
  have hwB : bitWeight i = 1 ∨ bitWeight i = 256 := by
    unfold bitWeight; split
    · exact Or.inl rfl
    · exact Or.inr rfl
  have h2b : 1 ≤ 2 ^ b ∧ 2 ^ b ≤ 128 := by
    constructor
    · exact Nat.one_le_two_pow
    · calc 2 ^ b ≤ 2 ^ 7 := Nat.pow_le_pow_right (by omega) (by omega)
        _ = 128 := by norm_num
  have hdelta : 1 ≤ 2 ^ b * bitWeight i ∧ 2 ^ b * bitWeight i ≤ 32768 := by
    rcases hwB with h | h <;> rw [h] <;> omega
  have hstep := flip_delta _ _ _ _ _ _ hset hflip
  have hW'lt : wordSum ((create_icmp_echo_request id_ seq ts size).set i
      (flipByteBit ((create_icmp_echo_request id_ seq ts size).getD i 0) b)) <
      4294967296 := by omega
  have hf' := fold16_facts _ hW'lt
  intro hcontra
  have hcontra2 : (65535 - fold16 (wordSum ((create_icmp_echo_request id_ seq ts
        size).set i (flipByteBit ((create_icmp_echo_request id_ seq ts size).getD
        i 0) b)))) % 256 * 256 +
      (65535 - fold16 (wordSum ((create_icmp_echo_request id_ seq ts size).set i
        (flipByteBit ((create_icmp_echo_request id_ seq ts size).getD i 0) b)))) /
        256 = 0 := by
    have hv : htons16 (65535 - fold16 (wordSum ((create_icmp_echo_request id_ seq ts
        size).set i (flipByteBit ((create_icmp_echo_request id_ seq ts size).getD
        i 0) b)) % 4294967296)) = 0 := hcontra
    rw [Nat.mod_eq_of_lt hW'lt] at hv
    exact hv
  omega

/-- C5 support: a request whose type byte has been rewritten to 0 (echo
reply), prefixed with any 20-byte IP header, parses back to the original
id, sequence and timestamp. -/
theorem parse_reply_of_request (id_ seq ts : Nat) (size : Int) (ipHdr : List Nat)
    (hid : id_ < 65536) (hseq : seq < 65536) (hts : ts < 18446744073709551616)
    (hsize : 16 ≤ size) (hip : ipHdr.length = 20) :
    parse_icmp_echo_reply
      (ipHdr ++ (create_icmp_echo_request id_ seq ts size).set 0 0) =
      .ok (id_, seq, ts) := by
  have hdecomp : (create_icmp_echo_request id_ seq ts size).set 0 0 =
      [0, 0, request_checksum id_ seq ts size / 256,
        request_checksum id_ seq ts size % 256,
        id_ / 256, id_ % 256, seq / 256, seq % 256] ++
      (packD ts ++ List.replicate (size - 16).toNat 81) := rfl
  rw [hdecomp]
  have hd20 := @List.drop_left' _ ipHdr
    ([0, 0, request_checksum id_ seq ts size / 256,
      request_checksum id_ seq ts size % 256,
      id_ / 256, id_ % 256, seq / 256, seq % 256] ++
      (packD ts ++ List.replicate (size - 16).toNat 81)) 20 hip
  have hhdr : ((ipHdr ++ ([0, 0, request_checksum id_ seq ts size / 256,
      request_checksum id_ seq ts size % 256,
      id_ / 256, id_ % 256, seq / 256, seq % 256] ++
      (packD ts ++ List.replicate (size - 16).toNat 81))).drop 20).take 8 =
      [0, 0, request_checksum id_ seq ts size / 256,
        request_checksum id_ seq ts size % 256,
        id_ / 256, id_ % 256, seq / 256, seq % 256] := by
    rw [hd20]
    exact List.take_left' rfl
  have hd28 : (ipHdr ++ ([0, 0, request_checksum id_ seq ts size / 256,
      request_checksum id_ seq ts size % 256,
      id_ / 256, id_ % 256, seq / 256, seq % 256] ++
      (packD ts ++ List.replicate (size - 16).toNat 81))).drop 28 =
      packD ts ++ List.replicate (size - 16).toNat 81 := by
    rw [show (28 : Nat) = ipHdr.length + 8 by omega, List.drop_append]
    rfl
  have htsb : ((ipHdr ++ ([0, 0, request_checksum id_ seq ts size / 256,
      request_checksum id_ seq ts size % 256,
      id_ / 256, id_ % 256, seq / 256, seq % 256] ++
      (packD ts ++ List.replicate (size - 16).toNat 81))).drop 28).take 8 =
      packD ts := by
    rw [hd28]
    exact List.take_left' rfl
  have hlen : (ipHdr ++ ([0, 0, request_checksum id_ seq ts size / 256,
      request_checksum id_ seq ts size % 256,
      id_ / 256, id_ % 256, seq / 256, seq % 256] ++
      (packD ts ++ List.replicate (size - 16).toNat 81))).length =
      36 + (size - 16).toNat := by
    simp [hip, packD]
    omega
  simp only [parse_icmp_echo_reply, hlen, hhdr, htsb]
  rw [if_neg (by omega), if_neg (by simp), if_neg (by omega)]
  simp only [packD, List.getD_cons_succ, List.getD_cons_zero,
    Except.ok.injEq, Prod.mk.injEq]
  refine ⟨by omega, by omega, by omega⟩

/-- Counterexample to C5 as stated: `parse_icmp_echo_reply` applied directly
to the output of `create_icmp_echo_request` does not return the original
`(id, sequence, timestamp)`.  The parser skips a 20-byte IP header that the
encoder does not produce (so byte 20 of the request is the filler 0x51), and
the encoder emits type 8 (echo request) while the parser demands type 0
(echo reply): at `id=1, seq=2, ts=3, size=64` the composition raises
`InvalidIcmpPacketType` instead of returning `(1, 2, 3)`. -/
theorem c5_counterexample_parse_create_not_roundtrip :
    parse_icmp_echo_reply (create_icmp_echo_request 1 2 3 64) =
      .error .invalidPacketType ∧
    (parse_icmp_echo_reply (create_icmp_echo_request 1 2 3 64)).toOption = none :=
  ⟨rfl, rfl⟩

/-- C5 (amended): the codec round-trips once the on-wire framing is
accounted for: prefixing the encoded request with any 20-byte IP header and
rewriting its type byte to 0 (as the remote stack's echo does), decoding
returns the original `(id, sequence, timestamp)`; moreover the emitted
packet verifies (its Internet checksum, embedded checksum included, is 0)
and corrupting any single bit of it changes the verification sum away from
0, so the corruption is detectable (sizes up to 60000 bytes keep the 32-bit
accumulator exact). -/
theorem c5_roundtrip_and_single_bit_detection (id_ seq ts : Nat) (size : Int)
    (ipHdr : List Nat) (i b : Nat)
    (hid : id_ < 65536) (hseq : seq < 65536) (hts : ts < 18446744073709551616)
    (hsize16 : 16 ≤ size) (hsize : size ≤ 60000) (hip : ipHdr.length = 20)
    (hi : i < (create_icmp_echo_request id_ seq ts size).length) (hb : b < 8) :
    parse_icmp_echo_reply
      (ipHdr ++ (create_icmp_echo_request id_ seq ts size).set 0 0) =
      .ok (id_, seq, ts) ∧
    calculate_checksum (create_icmp_echo_request id_ seq ts size) = 0 ∧
    calculate_checksum ((create_icmp_echo_request id_ seq ts size).set i
      (flipByteBit ((create_icmp_echo_request id_ seq ts size).getD i 0) b)) ≠ 0 :=
  ⟨parse_reply_of_request id_ seq ts size ipHdr hid hseq hts hsize16 hip,
   request_verifies id_ seq ts size hid hseq hsize,
   request_corrupt_detectable id_ seq ts size hid hseq hsize16 hsize i b hi hb⟩

theorem c5_roundtrip_and_single_bit_detection_witness :
    ((1 : Nat) < 65536 ∧ (2 : Nat) < 65536 ∧
      (3 : Nat) < 18446744073709551616 ∧ (16 : Int) ≤ 64 ∧ (64 : Int) ≤ 60000 ∧
      (List.replicate 20 (0 : Nat)).length = 20 ∧
      0 < (create_icmp_echo_request 1 2 3 64).length ∧ (0 : Nat) < 8) ∧
    (parse_icmp_echo_reply
        (List.replicate 20 0 ++ (create_icmp_echo_request 1 2 3 64).set 0 0) =
        .ok (1, 2, 3) ∧
      calculate_checksum (create_icmp_echo_request 1 2 3 64) = 0 ∧
      calculate_checksum ((create_icmp_echo_request 1 2 3 64).set 0
        (flipByteBit ((create_icmp_echo_request 1 2 3 64).getD 0 0) 0)) ≠ 0) :=
  ⟨⟨by decide, by decide, by decide, by decide, by decide, by decide,
      by decide, by decide⟩,
    c5_roundtrip_and_single_bit_detection 1 2 3 64 (List.replicate 20 0) 0 0
      (by decide) (by decide) (by decide) (by decide) (by decide) (by decide)
      (by decide) (by decide)⟩

/-! ## Window bound: claim C3 -/

theorem insertPacket_length_le :
    ∀ (l : List (Nat × String × Nat)) (pid : Nat) (dst : String) (t : Nat),
      (insertPacket l pid dst t).length ≤ l.length + 1
  | [], _, _, _ => by simp [insertPacket]
  | p :: rest, pid, dst, t => by
    simp only [insertPacket]
    split
    · simp
    · simpa using Nat.succ_le_succ (insertPacket_length_le rest pid dst t)

theorem scanTimedOut_shrinks (now tmo : Nat) :
    ∀ (l rest' : List (Nat × String × Nat)) (q : Nat × String × Nat),
      scanTimedOut now tmo l = some (q, rest') → rest'.length + 1 = l.length
  | [], _, _, h => by simp [scanTimedOut] at h
  | p :: rest, rest', q, h => by
    simp only [scanTimedOut] at h
    by_cases hp : tmo < now - p.2.2
    · rw [if_pos hp] at h
      simp only [Option.some.injEq, Prod.mk.injEq] at h
      obtain ⟨-, rfl⟩ := h
      simp
    · rw [if_neg hp] at h
      rcases hm : scanTimedOut now tmo rest with - | ⟨q', rest''⟩
      · rw [hm] at h
        exact absurd h (by simp)
      · rw [hm] at h
        simp only [Option.some.injEq, Prod.mk.injEq] at h
        obtain ⟨-, rfl⟩ := h
        have := scanTimedOut_shrinks now tmo rest rest'' q' hm
        simp only [List.length_cons]
        omega

theorem popPacket_shrinks (pid : Nat) :
    ∀ (l rest' : List (Nat × String × Nat)) (x : String × Nat),
      popPacket pid l = some (x, rest') → rest'.length + 1 = l.length
  | [], _, _, h => by simp [popPacket] at h
  | p :: rest, rest', x, h => by
    simp only [popPacket] at h
    by_cases hp : p.1 = pid
    · rw [if_pos hp] at h
      simp only [Option.some.injEq, Prod.mk.injEq] at h
      obtain ⟨-, rfl⟩ := h
      simp
    · rw [if_neg hp] at h
      rcases hm : popPacket pid rest with - | ⟨x', rest''⟩
      · rw [hm] at h
        exact absurd h (by simp)
      · rw [hm] at h
        simp only [Option.some.injEq, Prod.mk.injEq] at h
        obtain ⟨-, rfl⟩ := h
        have := popPacket_shrinks pid rest rest'' x' hm
        simp only [List.length_cons]
        omega

theorem on_idle_window (now : Nat) (st : PingerState)
    (h : st.packets.length ≤ st.packet_limit) :
    (on_idle now st).1.packets.length ≤ st.packet_limit ∧
    (on_idle now st).1.packet_limit = st.packet_limit := by
  unfold on_idle
  by_cases hp : st.pending = []
  · rw [if_pos hp]
    split
    · exact ⟨by simp, rfl⟩
    · exact ⟨h, rfl⟩
  · rw [if_neg hp]
    unfold try_send
    by_cases h2 : st.packets.length < st.packet_limit
    · rw [if_pos h2]
      refine ⟨?_, rfl⟩
      have := insertPacket_length_le st.packets st.id_ (st.pending.getLastD "") now
      show (insertPacket st.packets st.id_ (st.pending.getLastD "") now).length ≤
        st.packet_limit
      omega
    · rw [if_neg h2]
      show (try_removing_a_timed_out_packet now st).1.packets.length ≤
          st.packet_limit ∧
        (try_removing_a_timed_out_packet now st).1.packet_limit = st.packet_limit
      unfold try_removing_a_timed_out_packet
      rcases hm : scanTimedOut now st.timeout st.packets with - | ⟨q, rest'⟩
      · exact ⟨h, rfl⟩
      · have := scanTimedOut_shrinks now st.timeout st.packets rest' q hm
        exact ⟨by simp; omega, rfl⟩

theorem on_idle_no_grow (now : Nat) (st : PingerState)
    (hfull : ¬ st.packets.length < st.packet_limit) :
    (on_idle now st).1.packets.length ≤ st.packets.length := by
  unfold on_idle
  by_cases hp : st.pending = []
  · rw [if_pos hp]
    split
    · simp
    · simp
  · rw [if_neg hp]
    unfold try_send
    rw [if_neg hfull]
    show (try_removing_a_timed_out_packet now st).1.packets.length ≤
      st.packets.length
    unfold try_removing_a_timed_out_packet
    rcases hm : scanTimedOut now st.timeout st.packets with - | ⟨q, rest'⟩
    · simp
    · have := scanTimedOut_shrinks now st.timeout st.packets rest' q hm
      simp
      omega

/-- Exhaustive description of what `_on_receive` can do: crash on a
truncated datagram, drop the datagram leaving the state untouched, or
remove exactly the matched record and emit its callback. -/
theorem on_receive_cases (now : Nat) (d : List Nat) (st : PingerState) :
    on_receive now d st = .error () ∨
    on_receive now d st = .ok (st, []) ∨
    ∃ pid s tsent dst1 t1 rest',
      parse_icmp_echo_reply d = .ok (pid, s, tsent) ∧ s = st.seq ∧
      popPacket pid st.packets = some ((dst1, t1), rest') ∧
      on_receive now d st =
        .ok ({ st with packets := rest' }, [(dst1, some (now - tsent))]) := by
  unfold on_receive
  rcases hp : parse_icmp_echo_reply d with e | ⟨pid, s, tsent⟩
  · cases e
    · right; left; rfl
    · left; rfl
  · by_cases hs : s ≠ st.seq
    · right; left; simp [hs]
    · rcases hq : popPacket pid st.packets with - | ⟨⟨dst1, t1⟩, rest'⟩
      · right; left; simp [hs, hq]
      · right; right
        exact ⟨pid, s, tsent, dst1, t1, rest', rfl, by omega, hq, by simp [hs, hq]⟩

theorem on_receive_window (now : Nat) (d : List Nat) (st : PingerState)
    (r : PingerState × List Callback)
    (h : on_receive now d st = .ok r) :
    r.1.packets.length ≤ st.packets.length ∧
    r.1.packet_limit = st.packet_limit := by
  rcases on_receive_cases now d st with he | he | ⟨pid, s, tsent, dst1, t1, rest',
    hp, hs, hq, he⟩
  · rw [he] at h
    exact absurd h (by simp)
  · rw [he] at h
    simp only [Except.ok.injEq] at h
    subst h
    exact ⟨le_refl _, rfl⟩
  · rw [he] at h
    simp only [Except.ok.injEq] at h
    subst h
    have := popPacket_shrinks pid st.packets rest' (dst1, t1) hq
    exact ⟨by simp; omega, rfl⟩

theorem runLoop_window (evs : List LoopEvent) :
    ∀ (st : PingerState) (acc : List Callback) (fin : PingerState)
      (cbs : List Callback), st.packets.length ≤ st.packet_limit →
      runLoop st evs acc = .ok (fin, cbs) →
      fin.packets.length ≤ fin.packet_limit ∧
      fin.packet_limit = st.packet_limit := by
  induction evs with
  | nil =>
    intro st acc fin cbs h0 h
    simp only [runLoop, Except.ok.injEq, Prod.mk.injEq] at h
    rw [← h.1]
    exact ⟨h0, rfl⟩
  | cons ev rest ih =>
    intro st acc fin cbs h0 h
    cases ev with
    | idle now =>
      simp only [runLoop] at h
      by_cases hrun : st.running = false
      · rw [if_pos hrun] at h
        simp only [Except.ok.injEq, Prod.mk.injEq] at h
        rw [← h.1]
        exact ⟨h0, rfl⟩
      · rw [if_neg hrun] at h
        have hw := on_idle_window now st h0
        have := ih (on_idle now st).1 (acc ++ (on_idle now st).2) fin cbs
          (by omega) h
        omega
    | receive now d =>
      simp only [runLoop] at h
      by_cases hrun : st.running = false
      · rw [if_pos hrun] at h
        simp only [Except.ok.injEq, Prod.mk.injEq] at h
        rw [← h.1]
        exact ⟨h0, rfl⟩
      · rw [if_neg hrun] at h
        rcases hr : on_receive now d st with e | r <;> rw [hr] at h
        · exact absurd h (by simp)
        · have hw := on_receive_window now d st r hr
          have := ih r.1 (acc ++ r.2) fin cbs (by omega) h
          omega

/-- C3: throughout a `ping()` round (any trace of handler invocations,
covering every reachable state as the final state of a trace prefix), the
number of outstanding packet records never exceeds the configured
`packet_limit`; moreover a full window never grows (a send happens only when
the count is strictly below the limit, every other operation only removes
records). -/
theorem c3_window_never_exceeds_limit (st : PingerState) (evs : List LoopEvent)
    (fin : PingerState) (cbs : List Callback) (now : Nat) (st2 : PingerState)
    (h0 : st.packets.length ≤ st.packet_limit)
    (hrun : ping st evs = .ok (fin, cbs))
    (hfull : ¬ st2.packets.length < st2.packet_limit) :
    fin.packets.length ≤ st.packet_limit ∧
    (on_idle now st2).1.packets.length ≤ st2.packets.length := by
  have hw := runLoop_window evs (ping_start st) [] fin cbs h0 hrun
  have hlim : (ping_start st).packet_limit = st.packet_limit := rfl
  exact ⟨by omega, on_idle_no_grow now st2 hfull⟩

theorem c3_window_never_exceeds_limit_witness :
    (({ pingerBase with hosts := ["A"] } : PingerState).packets.length ≤
        ({ pingerBase with hosts := ["A"] } : PingerState).packet_limit ∧
      ping { pingerBase with hosts := ["A"] } [.idle 0, .idle 2000] =
        .ok ({ hosts := ["A"], pending := [], packets := [], id_ := 1, seq := 1,
               lastSend := 0, timeout := 1, packet_limit := 1000,
               packet_size := 64, running := false }, [("A", none)]) ∧
      ¬ c6State.packets.length < c6State.packet_limit) ∧
    (({ hosts := ["A"], pending := [], packets := [], id_ := 1, seq := 1,
        lastSend := 0, timeout := 1, packet_limit := 1000, packet_size := 64,
        running := false } : PingerState).packets.length ≤
      ({ pingerBase with hosts := ["A"] } : PingerState).packet_limit ∧
      (on_idle 10 c6State).1.packets.length ≤ c6State.packets.length) :=
  ⟨⟨by decide, rfl, by decide⟩,
    c3_window_never_exceeds_limit { pingerBase with hosts := ["A"] }
      [.idle 0, .idle 2000] _ [("A", none)] 10 c6State (by decide) rfl
      (by decide)⟩

/-! ## Exactly one callback per host occurrence: claim C2

The conservation argument: during a round, every host occurrence of the
snapshot is in exactly one of three places — still pending, recorded in the
outstanding table, or already called back — provided no `dict` insertion
ever overwrites a live record.  With at most 2^16 sends in the round the
allocated packet ids are pairwise distinct, so insertion always appends. -/

theorem count_middle (l1 l2 : List String) (y h : String) :
    (l1 ++ y :: l2).count h = (l1 ++ l2).count h + if y = h then 1 else 0 := by
  simp [List.count_append, List.count_cons]
  by_cases hy : y = h <;> simp [hy] <;> omega

theorem insertPacket_fresh :
    ∀ (l : List (Nat × String × Nat)) (pid : Nat) (dst : String) (t : Nat),
      (∀ p ∈ l, p.1 ≠ pid) →
      insertPacket l pid dst t = l ++ [(pid, dst, t)]
  | [], _, _, _, _ => rfl
  | p :: rest, pid, dst, t, h => by
    simp only [insertPacket]
    rw [if_neg (h p (by simp))]
    simp [insertPacket_fresh rest pid dst t (fun q hq => h q (by simp [hq]))]

theorem scanTimedOut_decomp (now tmo : Nat) :
    ∀ (l rest' : List (Nat × String × Nat)) (q : Nat × String × Nat),
      scanTimedOut now tmo l = some (q, rest') →
      ∃ l1 l2, l = l1 ++ q :: l2 ∧ rest' = l1 ++ l2
  | [], _, _, h => by simp [scanTimedOut] at h
  | p :: rest, rest', q, h => by
    simp only [scanTimedOut] at h
    by_cases hp : tmo < now - p.2.2
    · rw [if_pos hp] at h
      simp only [Option.some.injEq, Prod.mk.injEq] at h
      obtain ⟨rfl, rfl⟩ := h
      exact ⟨[], rest, rfl, rfl⟩
    · rw [if_neg hp] at h
      rcases hm : scanTimedOut now tmo rest with - | ⟨q', rest''⟩ <;> rw [hm] at h
      · exact absurd h (by simp)
      · simp only [Option.some.injEq, Prod.mk.injEq] at h
        obtain ⟨rfl, rfl⟩ := h
        obtain ⟨l1, l2, hl, hr⟩ := scanTimedOut_decomp now tmo rest rest'' q' hm
        exact ⟨p :: l1, l2, by simp [hl], by simp [hr]⟩

theorem popPacket_decomp (pid : Nat) :
    ∀ (l rest' : List (Nat × String × Nat)) (x : String × Nat),
      popPacket pid l = some (x, rest') →
      ∃ l1 l2, l = l1 ++ (pid, x) :: l2 ∧ rest' = l1 ++ l2
  | [], _, _, h => by simp [popPacket] at h
  | p :: rest, rest', x, h => by
    simp only [popPacket] at h
    by_cases hp : p.1 = pid
    · rw [if_pos hp] at h
      simp only [Option.some.injEq, Prod.mk.injEq] at h
      obtain ⟨rfl, rfl⟩ := h
      refine ⟨[], rest, ?_, rfl⟩
      simp [← hp]
    · rw [if_neg hp] at h
      rcases hm : popPacket pid rest with - | ⟨x', rest''⟩ <;> rw [hm] at h
      · exact absurd h (by simp)
      · simp only [Option.some.injEq, Prod.mk.injEq] at h
        obtain ⟨rfl, rfl⟩ := h
        obtain ⟨l1, l2, hl, hr⟩ := popPacket_decomp pid rest rest'' x' hm
        exact ⟨p :: l1, l2, by simp [hl], by simp [hr]⟩

theorem count_concat_str (l : List String) (y h : String) :
    (l ++ [y]).count h = l.count h + if y = h then 1 else 0 := by
  simpa using count_middle l [] y h

theorem count_map_dst_middle (l1 l2 : List (Nat × String × Nat))
    (q : Nat × String × Nat) (h : String) :
    ((l1 ++ q :: l2).map fun p => p.2.1).count h =
      ((l1 ++ l2).map fun p => p.2.1).count h + if q.2.1 = h then 1 else 0 := by
  simp only [List.map_append, List.map_cons]
  exact count_middle _ _ _ _

theorem count_map_fst_concat (acc : List Callback) (c : Callback) (h : String) :
    ((acc ++ [c]).map Prod.fst).count h =
      (acc.map Prod.fst).count h + if c.1 = h then 1 else 0 := by
  simp only [List.map_append, List.map_cons, List.map_nil]
  exact count_concat_str _ _ _

/-- The conservation invariant of one `ping()` round over the snapshot `H`
with starting packet-id `start`: while the loop runs, the pending queue has
at most `|H|` hosts, the id counter equals `start` plus the number of sends
so far (mod 2^16), every outstanding id was allocated in this round, and
every host occurrence of `H` is exactly once pending, outstanding, or called
back; once the loop has stopped, the callbacks are exactly `H`. -/
def roundInv (H : List String) (start : Nat) (st : PingerState)
    (acc : List Callback) : Prop :=
  (st.running = true →
    st.pending.length ≤ H.length ∧
    st.id_ = (start + (H.length - st.pending.length)) % 65536 ∧
    (∀ p ∈ st.packets, ∃ j, j < H.length - st.pending.length ∧
      p.1 = (start + j) % 65536) ∧
    (∀ h, st.pending.count h + (st.packets.map fun p => p.2.1).count h +
      (acc.map Prod.fst).count h = H.count h)) ∧
  (st.running = false → ∀ h, (acc.map Prod.fst).count h = H.count h)

theorem running_not_false {st : PingerState} (h1 : st.running = true)
    (h2 : st.running = false) {C : Prop} : C := by
  rw [h1] at h2
  exact absurd h2 (by simp)

theorem roundInv_idle (H : List String) (start now : Nat) (st : PingerState)
    (acc : List Callback) (hL : H.length ≤ 65536)
    (hrun : st.running = true)
    (hinv : roundInv H start st acc) :
    roundInv H start (on_idle now st).1 (acc ++ (on_idle now st).2) := by
  obtain ⟨hI, -⟩ := hinv
  obtain ⟨hlen, hid, hkeys, hcnt⟩ := hI hrun
  unfold on_idle
  by_cases hp : st.pending = []
  · rw [if_pos hp]
    by_cases hstop : st.packets = [] ∨ st.timeout < now - st.lastSend
    · rw [if_pos hstop]
      constructor
      · intro hr
        simp at hr
      · intro _ h
        show (List.map Prod.fst (acc ++ st.packets.map fun p =>
          (p.2.1, (none : Option Nat)))).count h = H.count h
        have hmap : ((st.packets.map fun p => (p.2.1, (none : Option Nat))).map
            Prod.fst) = st.packets.map fun p => p.2.1 := by
          simp
        rw [List.map_append, List.count_append, hmap]
        have hc := hcnt h
        rw [hp] at hc
        simp only [List.count_nil] at hc
        omega
    · rw [if_neg hstop]
      exact ⟨fun _ => ⟨hlen, hid, hkeys, fun h => by simpa using hcnt h⟩,
        fun hr => running_not_false hrun hr⟩
  · rw [if_neg hp]
    unfold try_send
    by_cases hfull : st.packets.length < st.packet_limit
    · rw [if_pos hfull]
      obtain ⟨ys, y, heq⟩ : ∃ ys y, st.pending = ys ++ [y] := by
        rcases List.eq_nil_or_concat st.pending with h1 | ⟨ys, y, h1⟩
        · exact absurd h1 hp
        · exact ⟨ys, y, by simpa using h1⟩
      have hplen1 : 1 ≤ st.pending.length := by rw [heq]; simp
      have hglast : st.pending.getLastD "" = y := by
        rw [heq]; exact List.getLastD_concat _ _ _
      have hdrop : st.pending.dropLast = ys := by rw [heq]; simp
      have hyslen : ys.length + 1 = st.pending.length := by rw [heq]; simp
      have hfresh : ∀ p ∈ st.packets, p.1 ≠ st.id_ := by
        intro p hpmem hcontra
        obtain ⟨j, hj, hjeq⟩ := hkeys p hpmem
        rw [hid, hjeq] at hcontra
        omega
      show roundInv H start
        (send now (st.pending.getLastD "") { st with pending := st.pending.dropLast })
        (acc ++ [])
      rw [hglast, hdrop]
      have hins : insertPacket st.packets st.id_ y now =
          st.packets ++ [(st.id_, y, now)] := insertPacket_fresh _ _ _ _ hfresh
      constructor
      · intro _
        refine ⟨?_, ?_, ?_, ?_⟩
        · show ys.length ≤ H.length
          omega
        · show (st.id_ + 1) % 65536 = (start + (H.length - ys.length)) % 65536
          rw [hid]
          have : H.length - ys.length = (H.length - st.pending.length) + 1 := by
            omega
          rw [this]
          omega
        · show ∀ p ∈ insertPacket st.packets st.id_ y now,
            ∃ j, j < H.length - ys.length ∧ p.1 = (start + j) % 65536
          rw [hins]
          intro p hpmem
          rcases List.mem_append.mp hpmem with hold | hnew
          · obtain ⟨j, hj, hjeq⟩ := hkeys p hold
            exact ⟨j, by omega, hjeq⟩
          · have hpeq : p = (st.id_, y, now) := by simpa using hnew
            refine ⟨H.length - st.pending.length, by omega, ?_⟩
            rw [hpeq, hid]
        · intro h
          show ys.count h +
            ((insertPacket st.packets st.id_ y now).map fun p => p.2.1).count h +
            ((acc ++ []).map Prod.fst).count h = H.count h
          rw [hins]
          have hm : ((st.packets ++ [(st.id_, y, now)]).map fun p => p.2.1) =
              (st.packets.map fun p => p.2.1) ++ [y] := by simp
          rw [hm, count_concat_str]
          have hc := hcnt h
          rw [heq, count_concat_str] at hc
          simp only [List.append_nil]
          omega
      · intro hr
        exact running_not_false hrun hr
    · rw [if_neg hfull]
      show roundInv H start (try_removing_a_timed_out_packet now st).1
        (acc ++ (try_removing_a_timed_out_packet now st).2)
      unfold try_removing_a_timed_out_packet
      rcases hm : scanTimedOut now st.timeout st.packets with - | ⟨q, rest'⟩
      · exact ⟨fun _ => ⟨hlen, hid, hkeys, fun h => by simpa using hcnt h⟩,
          fun hr => absurd (hrun ▸ hr) (by simp)⟩
      · obtain ⟨l1, l2, hl, hr2⟩ := scanTimedOut_decomp now st.timeout
          st.packets rest' q hm
        subst hr2
        show roundInv H start { st with packets := l1 ++ l2 }
          (acc ++ [(q.2.1, none)])
        constructor
        · intro _
          refine ⟨hlen, hid, ?_, ?_⟩
          · intro p hpmem
            apply hkeys
            rw [hl]
            simp only [List.mem_append, List.mem_cons] at hpmem ⊢
            tauto
          · intro h
            have hc := hcnt h
            rw [hl, count_map_dst_middle] at hc
            show st.pending.count h + ((l1 ++ l2).map fun p => p.2.1).count h +
              ((acc ++ [(q.2.1, none)]).map Prod.fst).count h = H.count h
            simp only [count_map_fst_concat]
            omega
        · intro hr
          exact running_not_false hrun hr

theorem roundInv_receive (H : List String) (start now : Nat) (d : List Nat)
    (st : PingerState) (acc : List Callback) (r : PingerState × List Callback)
    (hrun : st.running = true)
    (hok : on_receive now d st = .ok r)
    (hinv : roundInv H start st acc) :
    roundInv H start r.1 (acc ++ r.2) := by
  obtain ⟨hI, -⟩ := hinv
  obtain ⟨hlen, hid, hkeys, hcnt⟩ := hI hrun
  rcases on_receive_cases now d st with he | he | ⟨pid, s, tsent, dst1, t1, rest',
    hp, hs, hq, he⟩
  · rw [he] at hok
    exact absurd hok (by simp)
  · rw [he] at hok
    simp only [Except.ok.injEq] at hok
    subst hok
    exact ⟨fun _ => ⟨hlen, hid, hkeys, fun h => by simpa using hcnt h⟩,
      fun hr => absurd (hrun ▸ hr) (by simp)⟩
  · rw [he] at hok
    simp only [Except.ok.injEq] at hok
    subst hok
    obtain ⟨l1, l2, hl, hr2⟩ := popPacket_decomp pid st.packets rest' (dst1, t1) hq
    constructor
    · intro _
      refine ⟨hlen, hid, ?_, ?_⟩
      · intro p hpmem
        apply hkeys
        rw [hl]
        rw [hr2] at hpmem
        simp only [List.mem_append, List.mem_cons] at hpmem ⊢
        tauto
      · intro h
        have hc := hcnt h
        rw [hl, count_map_dst_middle] at hc
        rw [hr2, count_map_fst_concat]
        simp only at hc ⊢
        omega
    · intro hr
      exact running_not_false hrun hr

theorem runLoop_exactly_once (H : List String) (start : Nat)
    (hL : H.length ≤ 65536) (evs : List LoopEvent) :
    ∀ (st : PingerState) (acc : List Callback) (fin : PingerState)
      (cbs : List Callback), roundInv H start st acc →
      runLoop st evs acc = .ok (fin, cbs) → fin.running = false →
      ∀ h, (cbs.map Prod.fst).count h = H.count h := by
  induction evs with
  | nil =>
    intro st acc fin cbs hinv h hdone h1
    simp only [runLoop, Except.ok.injEq, Prod.mk.injEq] at h
    obtain ⟨rfl, rfl⟩ := h
    exact hinv.2 hdone h1
  | cons ev rest ih =>
    intro st acc fin cbs hinv h hdone h1
    by_cases hrun : st.running = false
    · cases ev with
      | idle now =>
        simp only [runLoop] at h
        rw [if_pos hrun] at h
        simp only [Except.ok.injEq, Prod.mk.injEq] at h
        obtain ⟨rfl, rfl⟩ := h
        exact hinv.2 hrun h1
      | receive now d =>
        simp only [runLoop] at h
        rw [if_pos hrun] at h
        simp only [Except.ok.injEq, Prod.mk.injEq] at h
        obtain ⟨rfl, rfl⟩ := h
        exact hinv.2 hrun h1
    · have hrunT : st.running = true := by
        cases hsr : st.running
        · exact absurd hsr hrun
        · rfl
      cases ev with
      | idle now =>
        simp only [runLoop] at h
        rw [if_neg hrun] at h
        exact ih _ _ _ _ (roundInv_idle H start now st acc hL hrunT hinv) h hdone h1
      | receive now d =>
        simp only [runLoop] at h
        rw [if_neg hrun] at h
        rcases hr : on_receive now d st with e | r <;> rw [hr] at h
        · exact absurd h (by simp)
        · exact ih _ _ _ _ (roundInv_receive H start now d st acc r hrunT hr hinv)
            h hdone h1

/-- C2 (amended): for a round started between rounds (no packets outstanding,
id counter in range) over a snapshot of at most 2^16 host occurrences, with
`packet_limit` at most 2^16, every completed run of the loop (final state
stopped) invokes the callback exactly once per host occurrence in the
snapshot: the callback multiset projects to exactly the snapshot multiset. -/
theorem c2_exactly_one_callback_per_host (st : PingerState)
    (evs : List LoopEvent) (fin : PingerState) (cbs : List Callback)
    (host : String)
    (hpkts : st.packets = [])
    (hid : st.id_ < 65536)
    (hN : st.hosts.length ≤ 65536)
    (hlimit : st.packet_limit ≤ 65536)
    (hrun : ping st evs = .ok (fin, cbs))
    (hdone : fin.running = false) :
    (cbs.map Prod.fst).count host = st.hosts.count host := by
  have hinv : roundInv st.hosts st.id_ (ping_start st) [] := by
    constructor
    · intro _
      refine ⟨le_refl _, ?_, ?_, ?_⟩
      · show st.id_ = (st.id_ + (st.hosts.length - st.hosts.length)) % 65536
        omega
      · show ∀ p ∈ st.packets, _
        rw [hpkts]
        simp
      · intro h
        show st.hosts.count h + (st.packets.map fun p => p.2.1).count h +
          (([] : List Callback).map Prod.fst).count h = st.hosts.count h
        rw [hpkts]
        simp
    · intro hr
      exact absurd (show (true : Bool) = false from hr) (by simp)
  exact runLoop_exactly_once st.hosts st.id_ hN evs (ping_start st) [] fin cbs
    hinv hrun hdone host

theorem c2_exactly_one_callback_per_host_witness :
    (({ pingerBase with hosts := ["A"] } : PingerState).packets = [] ∧
      ({ pingerBase with hosts := ["A"] } : PingerState).id_ < 65536 ∧
      ({ pingerBase with hosts := ["A"] } : PingerState).hosts.length ≤ 65536 ∧
      ({ pingerBase with hosts := ["A"] } : PingerState).packet_limit ≤ 65536 ∧
      ping { pingerBase with hosts := ["A"] } [.idle 0, .idle 2000] =
        .ok ({ hosts := ["A"], pending := [], packets := [], id_ := 1, seq := 1,
               lastSend := 0, timeout := 1, packet_limit := 1000,
               packet_size := 64, running := false }, [("A", none)]) ∧
      ({ hosts := ["A"], pending := [], packets := [], id_ := 1, seq := 1,
         lastSend := 0, timeout := 1, packet_limit := 1000, packet_size := 64,
         running := false } : PingerState).running = false) ∧
    (([("A", (none : Option Nat))].map Prod.fst).count "A" =
      ({ pingerBase with hosts := ["A"] } : PingerState).hosts.count "A") :=
  ⟨⟨rfl, by decide, by decide, by decide, rfl, rfl⟩,
    c2_exactly_one_callback_per_host { pingerBase with hosts := ["A"] }
      [.idle 0, .idle 2000] _ [("A", none)] "A" rfl (by decide) (by decide)
      (by decide) rfl rfl⟩

/-! ### Counterexample to C2 as stated

A round over 65537 host occurrences (one "A" then 65536 "B"s) with
`packet_limit = 2` and a frozen clock: "A" is sent first with packet id 0
and never answered nor timed out; each "B" is sent and answered immediately,
freeing the window, until the id counter wraps and the 65536th "B" send
overwrites the live id-0 record of "A" in the `dict`.  The round completes,
"B" receives 65536 callbacks, and "A" receives none — so the callback is not
invoked exactly once per host occurrence even though `packet_limit ≤ 2^16`. -/

def cexHosts : List String := List.replicate 65536 "B" ++ ["A"]

def cexSt : PingerState :=
  { hosts := cexHosts, pending := [], packets := [], id_ := 0, seq := 0,
    lastSend := 0, timeout := 1000, packet_limit := 2, packet_size := 64,
    running := false }

/-- A well-formed echo-reply datagram carrying packet id `i`, sequence `s`
and timestamp 0. -/
def replyPkt (i s : Nat) : List Nat :=
  List.replicate 20 0 ++
    [0, 0, 0, 0, i / 256, i % 256, s / 256, s % 256, 0, 0, 0, 0, 0, 0, 0, 0]

theorem parse_replyPkt (i s : Nat) (hi : i < 65536) (hs : s < 65536) :
    parse_icmp_echo_reply (replyPkt i s) = .ok (i, s, 0) := by
  have hd20 : (replyPkt i s).drop 20 =
      [0, 0, 0, 0, i / 256, i % 256, s / 256, s % 256, 0, 0, 0, 0, 0, 0, 0, 0] :=
    List.drop_left' (by simp)
  have hd28 : (replyPkt i s).drop 28 = [0, 0, 0, 0, 0, 0, 0, 0] := by
    unfold replyPkt
    rw [show (28 : Nat) = (List.replicate 20 (0 : Nat)).length + 8 by simp,
      List.drop_append]
    rfl
  have hlen : (replyPkt i s).length = 36 := by
    unfold replyPkt
    simp
  simp only [parse_icmp_echo_reply, hlen, hd20, hd28]
  rw [if_neg (by omega), if_neg (by simp), if_neg (by omega)]
  show (Except.ok (i / 256 * 256 + i % 256, s / 256 * 256 + s % 256, 0) :
    Except IcmpParseError (Nat × Nat × Nat)) = .ok (i, s, 0)
  simp only [Except.ok.injEq, Prod.mk.injEq]
  refine ⟨by omega, by omega, trivial⟩

/-- The state after the send of "A" (id 0) and `m` completed send/reply
pairs for "B" hosts, `0 ≤ m ≤ 65535`. -/
def cexState (m : Nat) : PingerState :=
  { hosts := cexHosts, pending := List.replicate (65536 - m) "B",
    packets := [(0, "A", 0)], id_ := (m + 1) % 65536, seq := 1,
    lastSend := 0, timeout := 1000, packet_limit := 2, packet_size := 64,
    running := true }

/-- The state in the middle of pair `m`: the `m+1`-st "B" has been sent but
not yet answered. -/
def cexMid (m : Nat) : PingerState :=
  { hosts := cexHosts, pending := List.replicate (65536 - (m + 1)) "B",
    packets := [(0, "A", 0), (m + 1, "B", 0)], id_ := (m + 2) % 65536,
    seq := 1, lastSend := 0, timeout := 1000, packet_limit := 2,
    packet_size := 64, running := true }

theorem runLoop_cons_idle (st : PingerState) (hrun : st.running = true)
    (now : Nat) (rest : List LoopEvent) (acc : List Callback) :
    runLoop st (.idle now :: rest) acc =
      runLoop (on_idle now st).1 rest (acc ++ (on_idle now st).2) := by
  simp only [runLoop]
  rw [if_neg (by rw [hrun]; simp)]

theorem runLoop_cons_receive (st : PingerState) (hrun : st.running = true)
    (now : Nat) (d : List Nat) (rest : List LoopEvent) (acc : List Callback)
    (r : PingerState × List Callback) (hr : on_receive now d st = .ok r) :
    runLoop st (.receive now d :: rest) acc = runLoop r.1 rest (acc ++ r.2) := by
  simp only [runLoop]
  rw [if_neg (by rw [hrun]; simp), hr]

theorem dropLast_replicate (n : Nat) (a : String) :
    (List.replicate n a).dropLast = List.replicate (n - 1) a := by
  cases n with
  | zero => rfl
  | succ k =>
    rw [List.replicate_succ', List.dropLast_concat]
    simp

theorem getLastD_replicate (n : Nat) (a d : String) (h : 1 ≤ n) :
    (List.replicate n a).getLastD d = a := by
  obtain ⟨k, rfl⟩ : ∃ k, n = k + 1 := ⟨n - 1, by omega⟩
  rw [List.replicate_succ', List.getLastD_concat]

theorem cex_on_idle (m : Nat) (hm : m ≤ 65534) :
    on_idle 0 (cexState m) = (cexMid m, []) := by
  have hmod : (m + 1) % 65536 = m + 1 := by omega
  have hne : (cexState m).pending ≠ [] := by
    show List.replicate (65536 - m) "B" ≠ []
    intro hc
    rw [List.replicate_eq_nil] at hc
    omega
  unfold on_idle
  rw [if_neg hne]
  unfold try_send
  rw [if_pos (by show (1 : Nat) < 2; omega)]
  have hlast : (cexState m).pending.getLastD "" = "B" :=
    getLastD_replicate _ _ _ (by show 1 ≤ 65536 - m; omega)
  have hdrop : (cexState m).pending.dropLast = List.replicate (65536 - (m + 1)) "B" := by
    show (List.replicate (65536 - m) "B").dropLast = _
    rw [dropLast_replicate]
    rfl
  rw [hlast, hdrop]
  unfold send
  show (⟨cexHosts, List.replicate (65536 - (m + 1)) "B",
    insertPacket [(0, "A", 0)] ((m + 1) % 65536) "B" 0,
    ((m + 1) % 65536 + 1) % 65536, 1, 0, 1000, 2, 64, true⟩, ([] : List Callback)) =
    (cexMid m, [])
  rw [hmod]
  have hins : insertPacket [(0, "A", 0)] (m + 1) "B" 0 =
      [(0, "A", 0), (m + 1, "B", 0)] := by
    unfold insertPacket
    rw [if_neg (by omega)]
    rfl
  rw [hins]
  rfl

theorem on_receive_of_parse_pop (now : Nat) (d : List Nat) (st : PingerState)
    (pid s tsent : Nat) (dst1 : String) (t1 : Nat)
    (rest' : List (Nat × String × Nat))
    (hp : parse_icmp_echo_reply d = .ok (pid, s, tsent))
    (hs : s = st.seq)
    (hq : popPacket pid st.packets = some ((dst1, t1), rest')) :
    on_receive now d st =
      .ok ({ st with packets := rest' }, [(dst1, some (now - tsent))]) := by
  unfold on_receive
  rw [hp]
  simp [hs, hq]

theorem cex_popPacket (m : Nat) :
    popPacket (m + 1) [(0, "A", 0), (m + 1, "B", 0)] =
      some (("B", 0), [(0, "A", 0)]) := by
  have h0 : ¬ ((0 : Nat) = m + 1) := by omega
  simp only [popPacket]
  rw [if_neg h0]
  simp

theorem cex_on_receive (m : Nat) (hm : m ≤ 65534) :
    on_receive 0 (replyPkt (m + 1) 1) (cexMid m) =
      .ok (cexState (m + 1), [("B", some 0)]) := by
  have h := on_receive_of_parse_pop 0 (replyPkt (m + 1) 1) (cexMid m) (m + 1) 1 0
    "B" 0 [(0, "A", 0)] (parse_replyPkt (m + 1) 1 (by omega) (by omega)) rfl
    (cex_popPacket m)
  exact h

theorem cexPair_step (m : Nat) (hm : m ≤ 65534) (rest : List LoopEvent)
    (acc : List Callback) :
    runLoop (cexState m)
      (.idle 0 :: .receive 0 (replyPkt (m + 1) 1) :: rest) acc =
      runLoop (cexState (m + 1)) rest (acc ++ [("B", some 0)]) := by
  rw [runLoop_cons_idle (cexState m) rfl 0 _ acc, cex_on_idle m hm]
  show runLoop (cexMid m) (.receive 0 (replyPkt (m + 1) 1) :: rest) (acc ++ [])
    = _
  rw [runLoop_cons_receive (cexMid m) rfl 0 _ rest (acc ++ [])
    (cexState (m + 1), [("B", some 0)]) (cex_on_receive m hm)]
  rw [List.append_nil]

/-- The first `m` send/reply pairs of the counterexample trace. -/
def cexPairs : Nat → List LoopEvent
  | 0 => []
  | m + 1 => cexPairs m ++ [.idle 0, .receive 0 (replyPkt (m + 1) 1)]

theorem cexPairs_run :
    ∀ (m : Nat), m ≤ 65535 → ∀ (rest : List LoopEvent) (acc : List Callback),
      runLoop (cexState 0) (cexPairs m ++ rest) acc =
        runLoop (cexState m) rest (acc ++ List.replicate m ("B", some 0)) := by
  intro m
  induction m with
  | zero =>
    intro _ rest acc
    simp [cexPairs]
  | succ k ih =>
    intro hm rest acc
    have hsplit : cexPairs (k + 1) ++ rest =
        cexPairs k ++ ([.idle 0, .receive 0 (replyPkt (k + 1) 1)] ++ rest) := by
      show (cexPairs k ++ [.idle 0, .receive 0 (replyPkt (k + 1) 1)]) ++ rest = _
      rw [List.append_assoc]
    rw [hsplit, ih (by omega)]
    rw [show ([LoopEvent.idle 0, .receive 0 (replyPkt (k + 1) 1)] ++ rest) =
      .idle 0 :: .receive 0 (replyPkt (k + 1) 1) :: rest from rfl]
    rw [cexPair_step k (by omega) rest _]
    rw [List.append_assoc]
    rw [show (List.replicate k ("B", (some 0 : Option Nat)) ++ [("B", some 0)]) =
      List.replicate (k + 1) ("B", some 0) from (List.replicate_succ' _ _).symm]

/-- State after the 65536th "B" send: its packet id has wrapped to 0 and the
`dict` assignment has overwritten the live record of "A". -/
def cexPen : PingerState :=
  { hosts := cexHosts, pending := [], packets := [(0, "B", 0)], id_ := 1,
    seq := 1, lastSend := 0, timeout := 1000, packet_limit := 2,
    packet_size := 64, running := true }

/-- State after the reply to the wrapped id-0 packet. -/
def cexPenDone : PingerState :=
  { hosts := cexHosts, pending := [], packets := [], id_ := 1, seq := 1,
    lastSend := 0, timeout := 1000, packet_limit := 2, packet_size := 64,
    running := true }

/-- Final state of the counterexample round. -/
def cexFinal : PingerState :=
  { hosts := cexHosts, pending := [], packets := [], id_ := 1, seq := 1,
    lastSend := 0, timeout := 1000, packet_limit := 2, packet_size := 64,
    running := false }

/-- The full counterexample trace: send "A", then 65535 send/reply pairs for
"B", then the wrapping 65536th "B" send, its reply, and the closing idle
tick. -/
def cexTrace : List LoopEvent :=
  .idle 0 :: (cexPairs 65535 ++ [.idle 0, .receive 0 (replyPkt 0 1), .idle 0])

theorem cex_first_idle : on_idle 0 (ping_start cexSt) = (cexState 0, []) := by
  have hne : (ping_start cexSt).pending ≠ [] := by
    show cexHosts ≠ []
    intro hc
    unfold cexHosts at hc
    exact List.cons_ne_nil "A" [] (List.append_eq_nil.mp hc).2
  unfold on_idle
  rw [if_neg hne]
  unfold try_send
  rw [if_pos (by show (0 : Nat) < 2; omega)]
  have hlast : (ping_start cexSt).pending.getLastD "" = "A" :=
    List.getLastD_concat _ _ _
  have hdrop : (ping_start cexSt).pending.dropLast = List.replicate 65536 "B" :=
    List.dropLast_concat
  rw [hlast, hdrop]
  unfold send
  rfl

theorem cex_last_idle : on_idle 0 (cexState 65535) = (cexPen, []) := by
  have hne : (cexState 65535).pending ≠ [] := by decide
  unfold on_idle
  rw [if_neg hne]
  unfold try_send
  rw [if_pos (by show (1 : Nat) < 2; omega)]
  have hlast : (cexState 65535).pending.getLastD "" = "B" := by decide
  have hdrop : (cexState 65535).pending.dropLast = [] := by decide
  rw [hlast, hdrop]
  unfold send
  rfl

theorem cex_last_receive :
    on_receive 0 (replyPkt 0 1) cexPen = .ok (cexPenDone, [("B", some 0)]) := by
  have h := on_receive_of_parse_pop 0 (replyPkt 0 1) cexPen 0 1 0 "B" 0 []
    (parse_replyPkt 0 1 (by omega) (by omega)) rfl (by decide)
  exact h

theorem cex_final_idle : on_idle 0 cexPenDone = (cexFinal, []) := rfl

/-- Counterexample to C2 as stated: with `packet_limit = 2` (at most 2^16)
and a snapshot of 65537 host occurrences (65536 "B"s and one "A"), there is
a complete round in which the 16-bit packet-id counter wraps, the 65536th
"B" send overwrites the still-live id-0 record of "A", and the round ends
with 65536 callbacks for "B" and none at all for the occurrence of "A". -/
theorem c2_counterexample_id_wraparound_loses_host :
    ping cexSt cexTrace =
      .ok (cexFinal,
        List.replicate 65535 ("B", some 0) ++ [("B", some 0)]) ∧
    cexFinal.running = false ∧
    cexSt.packets = [] ∧
    cexSt.packet_limit ≤ 65536 ∧
    cexSt.hosts.count "A" = 1 ∧
    ((List.replicate 65535 ("B", (some 0 : Option Nat)) ++
      [("B", some 0)]).map Prod.fst).count "A" = 0 := by
  refine ⟨?_, rfl, rfl, by decide, ?_, ?_⟩
  · have h1 : runLoop (ping_start cexSt) cexTrace [] =
        runLoop (cexState 0)
          (cexPairs 65535 ++ [.idle 0, .receive 0 (replyPkt 0 1), .idle 0]) [] := by
      have h1a : runLoop (ping_start cexSt) cexTrace [] =
          runLoop (on_idle 0 (ping_start cexSt)).1
            (cexPairs 65535 ++ [.idle 0, .receive 0 (replyPkt 0 1), .idle 0])
            ([] ++ (on_idle 0 (ping_start cexSt)).2) := by
        unfold cexTrace
        exact runLoop_cons_idle (ping_start cexSt) rfl 0 _ []
      have h1b : runLoop (on_idle 0 (ping_start cexSt)).1
            (cexPairs 65535 ++ [.idle 0, .receive 0 (replyPkt 0 1), .idle 0])
            ([] ++ (on_idle 0 (ping_start cexSt)).2) =
          runLoop (cexState 0)
            (cexPairs 65535 ++ [.idle 0, .receive 0 (replyPkt 0 1), .idle 0])
            [] := by
        rw [cex_first_idle]
        rfl
      exact h1a.trans h1b
    have h2 := cexPairs_run 65535 (by omega)
      [.idle 0, .receive 0 (replyPkt 0 1), .idle 0] []
    have h3 : runLoop (cexState 65535)
        [.idle 0, .receive 0 (replyPkt 0 1), .idle 0]
        ([] ++ List.replicate 65535 ("B", some 0)) =
        runLoop cexPen [.receive 0 (replyPkt 0 1), .idle 0]
          (List.replicate 65535 ("B", some 0)) := by
      rw [runLoop_cons_idle (cexState 65535) rfl 0 _ _, cex_last_idle]
      show runLoop cexPen [.receive 0 (replyPkt 0 1), .idle 0]
        (([] ++ List.replicate 65535 ("B", some 0)) ++ []) = _
      rw [List.append_nil, List.nil_append]
    have h4 : runLoop cexPen [.receive 0 (replyPkt 0 1), .idle 0]
        (List.replicate 65535 ("B", some 0)) =
        runLoop cexPenDone [.idle 0]
          (List.replicate 65535 ("B", some 0) ++ [("B", some 0)]) := by
      rw [runLoop_cons_receive cexPen rfl 0 (replyPkt 0 1) _ _ _ cex_last_receive]
    have h5 : runLoop cexPenDone [.idle 0]
        (List.replicate 65535 ("B", some 0) ++ [("B", some 0)]) =
        .ok (cexFinal, List.replicate 65535 ("B", some 0) ++ [("B", some 0)]) := by
      rw [runLoop_cons_idle cexPenDone rfl 0 _ _, cex_final_idle]
      show runLoop cexFinal []
        ((List.replicate 65535 ("B", some 0) ++ [("B", some 0)]) ++ []) = _
      rw [List.append_nil]
      rfl
    exact h1.trans (h2.trans (h3.trans (h4.trans h5)))
  · show (List.replicate 65536 "B" ++ ["A"]).count "A" = 1
    rw [count_concat_str]
    rw [List.count_replicate]
    simp
  · rw [List.map_append]
    simp only [List.map_replicate]
    rw [List.count_append, List.count_replicate]
    simp
